import Mathlib

/-!
Verification of the thadamAI lab-report pipeline.

Shallow embedding of `src/lab_extractor.py`, `src/llm_verifier.py` and the
range parser of `src/app.py`.  Numeric values are modelled as rationals
(`ℚ`); Python strings are modelled as Lean `String`s, with the handful of
string primitives the code uses (`strip`, `lower`, `upper`, `startswith`,
slicing) re-implemented over the character list so that everything reduces.
Python functions that can raise are modelled with an `Option` result
(`none` = an exception propagates); functions that cannot raise are total.
-/

namespace ThadamAI

/-! ### Python string primitives -/

/-- Python `str.strip()` (whitespace on both ends). -/
def pyStrip (s : String) : String :=
  String.mk (((s.toList.dropWhile Char.isWhitespace).reverse.dropWhile
      Char.isWhitespace).reverse)

/-- Python `str.lower()` (the code only lower-cases ASCII). -/
def pyLower (s : String) : String := String.mk (s.toList.map Char.toLower)

/-- Python `str.upper()` (the code only upper-cases ASCII). -/
def pyUpper (s : String) : String := String.mk (s.toList.map Char.toUpper)

/-- Python `s.startswith(pre)`. -/
def pyStarts (s pre : String) : Bool := s.toList.take pre.toList.length == pre.toList

/-- Python `s[n:]` (drop the first `n` characters). -/
def pyDrop (s : String) (n : Nat) : String := String.mk (s.toList.drop n)

/-- Numeric value of a run of decimal digits. -/
def digitsVal (ds : List Char) : Nat :=
  ds.foldl (fun acc c => acc * 10 + (c.toNat - 48)) 0

/-- Numeric value of the fractional part `ds` of a decimal literal. -/
def fracVal (ds : List Char) : ℚ :=
  (digitsVal ds : ℚ) / (10 : ℚ) ^ ds.length

/-- Parse an unsigned decimal literal (`d+`, `d+.d*`, `.d+`), the decimal
subset of what Python `float()` accepts; the grammar of §6 uses nothing
else (no exponents, `inf` or `nan` literals). -/
def parseUnsignedDec (cs : List Char) : Option ℚ :=
  let ip := cs.takeWhile Char.isDigit
  let rest := cs.dropWhile Char.isDigit
  match rest with
  | [] => if ip.isEmpty then none else some (digitsVal ip : ℚ)
  | '.' :: fp =>
      if fp.all Char.isDigit && !(ip.isEmpty && fp.isEmpty) then
        some ((digitsVal ip : ℚ) + fracVal fp)
      else none
  | _ => none

/-- Python `float(s)` on the decimal forms used by the range grammar;
`none` models a `ValueError`. -/
def pyFloat (s : String) : Option ℚ :=
  match (pyStrip s).toList with
  | '+' :: cs => parseUnsignedDec cs
  | '-' :: cs => (parseUnsignedDec cs).map (fun q => -q)
  | cs => parseUnsignedDec cs

/-! ### Range parsing — `lab_extractor._parse_range` -/

/-- One capture group `\d+\.?\d*` of the range regex: its numeric value and
the remaining input. -/
def matchRangeNum (cs : List Char) : Option (ℚ × List Char) :=
  let ds := cs.takeWhile Char.isDigit
  if ds.isEmpty then none
  else
    match cs.dropWhile Char.isDigit with
    | '.' :: r2 =>
        some ((digitsVal ds : ℚ) + fracVal (r2.takeWhile Char.isDigit),
              r2.dropWhile Char.isDigit)
    | rest => some ((digitsVal ds : ℚ), rest)

/-- The anchored regex `^(\d+\.?\d*)\s*-\s*(\d+\.?\d*)$` together with
`float` applied to both groups.  The pattern is deterministic (no
backtracking can change the outcome), so a greedy scan is faithful. -/
def matchLowHigh (cs : List Char) : Option (ℚ × ℚ) := do
  let (a, r1) ← matchRangeNum cs
  match r1.dropWhile Char.isWhitespace with
  | '-' :: r2 => do
      let (b, r3) ← matchRangeNum (r2.dropWhile Char.isWhitespace)
      if r3.isEmpty then some (a, b) else none
  | _ => none

/-- `lab_extractor._parse_range` (src/lab_extractor.py lines 267-278).
The outer `Option` is `none` when Python would raise a `ValueError`
(`float` applied to a malformed suffix of a `>=`/`<=`/`>`/`<` form). -/
def parse_range (s : String) : Option (Option ℚ × Option ℚ) :=
  let s := pyStrip s
  if s = "" ∨ s = "nan" then some (none, none)
  else match matchLowHigh s.toList with
  | some (a, b) => some (some a, some b)
  | none =>
    if pyStarts s ">=" then (pyFloat (pyDrop s 2)).map (fun x => (some x, none))
    else if pyStarts s "<=" then (pyFloat (pyDrop s 2)).map (fun x => (none, some x))
    else if pyStarts s ">" then (pyFloat (pyDrop s 1)).map (fun x => (some x, none))
    else if pyStarts s "<" then (pyFloat (pyDrop s 1)).map (fun x => (none, some x))
    else some (none, none)

/-! ### Range parsing — `app._parse_range` -/

/-- Python `s.split(sep, 1)`: split at the first occurrence of `sep`;
`none` when `sep` does not occur (the code guards with `sep in s`). -/
def splitFirst : List Char → Char → Option (List Char × List Char)
  | [], _ => none
  | c :: rest, sep =>
      if c = sep then some ([], rest)
      else (splitFirst rest sep).map (fun p => (c :: p.1, p.2))

/-- The en-dash character `–`. -/
def enDash : Char := Char.ofNat 8211

/-- `app._parse_range` (src/app.py lines 498-516).  Total: every
`ValueError`/`IndexError` is caught and becomes `(None, None)`.
The `pd.isna` guard concerns non-string cells and is outside the string
model. -/
def app_parse_range (s : String) : Option ℚ × Option ℚ :=
  let s := pyStrip s
  if s = "" ∨ pyLower s = "nan" then (none, none)
  else if pyStarts s "<=" then
    match pyFloat (pyDrop s 2) with | some x => (none, some x) | none => (none, none)
  else if pyStarts s "<" then
    match pyFloat (pyDrop s 1) with | some x => (none, some x) | none => (none, none)
  else if pyStarts s ">=" then
    match pyFloat (pyDrop s 2) with | some x => (some x, none) | none => (none, none)
  else if pyStarts s ">" then
    match pyFloat (pyDrop s 1) with | some x => (some x, none) | none => (none, none)
  else match splitFirst s.toList enDash with
  | some (a, b) =>
      match pyFloat (String.mk a), pyFloat (String.mk b) with
      | some x, some y => (some x, some y)
      | _, _ => (none, none)
  | none =>
    match splitFirst s.toList '-' with
    | some (a, b) =>
        match pyFloat (String.mk a), pyFloat (String.mk b) with
        | some x, some y => (some x, some y)
        | _, _ => (none, none)
    | none =>
        match pyFloat s with
        | some v => (some v, some v)
        | none => (none, none)

/-! ### Unit conversion and status flagging -/

/-- `UNIT_CONVERSIONS` (src/lab_extractor.py lines 136-141). -/
def UNIT_CONVERSIONS : List ((String × String) × ℚ) :=
  [(("ng/ml", "ng/dl"), 10), (("ng/dl", "ng/ml"), 1/10),
   (("µg/dl", "µg/ml"), 1/100), (("µg/ml", "µg/dl"), 100)]

/-- `_convert_value` (src/lab_extractor.py lines 281-284).  The Python
`value * factor if factor else value` treats a zero factor as absent. -/
def convert_value (value : ℚ) (from_unit to_unit : String) : ℚ :=
  match (UNIT_CONVERSIONS.find?
      (fun p => p.1.1 == pyLower from_unit && p.1.2 == pyLower to_unit)).map (·.2) with
  | some f => if f = 0 then value else value * f
  | none => value

/-- One `sex_rows` entry of a biomarker definition. -/
structure SexRow where
  sex : String
  normal_range : String
deriving DecidableEq

/-- A `BIOMARKERS` entry: canonical unit plus per-sex range rows. -/
structure Biomarker where
  unit : String
  sex_rows : List SexRow
deriving DecidableEq

/-- The `BIOMARKERS` dictionary, loaded from the external reference-data
file (data, not logic — §1 of the spec); modelled as an association list
and passed explicitly. -/
abbrev BioDict := List (String × Biomarker)

/-- Python `BIOMARKERS.get(canonical)`. -/
def dictGet (d : BioDict) (c : String) : Option Biomarker :=
  (d.find? (fun p => p.1 == c)).map (·.2)

/-- The row-selection loop of `flag_status`: a `both` row is recorded as a
candidate (later `both` rows overwrite earlier ones), a row whose sex
matches the upper-cased gender is taken and stops the search. -/
def matchRows (g : String) : List SexRow → Option SexRow → Option SexRow
  | [], acc => acc
  | sr :: rest, acc =>
      if sr.sex = "both" then matchRows g rest (some sr)
      else if (sr.sex = "male" ∧ g = "M") ∨ (sr.sex = "female" ∧ g = "F") then some sr
      else matchRows g rest acc

/-- `flag_status` (src/lab_extractor.py lines 287-306).  `none` models the
exception that `_parse_range` would propagate on a malformed inequality
range. -/
def flag_status (dict : BioDict) (canonical : String) (value : ℚ)
    (extracted_unit : String) (gender : String) : Option String :=
  match dictGet dict canonical with
  | none => some "—"
  | some bm =>
    match matchRows (pyUpper gender) bm.sex_rows none with
    | none => some "—"
    | some matched =>
      match parse_range matched.normal_range with
      | none => none
      | some (low, high) =>
        if low.any (fun l => decide (convert_value value extracted_unit bm.unit < l)) then
          some "LOW ⬇"
        else if high.any (fun h => decide (h < convert_value value extracted_unit bm.unit)) then
          some "HIGH ⬆"
        else some "Normal"

/-- Does a sex row explicitly match the (already upper-cased) gender? -/
def sexRowMatches (g : String) (sr : SexRow) : Prop :=
  (sr.sex = "male" ∧ g = "M") ∨ (sr.sex = "female" ∧ g = "F")

instance (g : String) (sr : SexRow) : Decidable (sexRowMatches g sr) := by
  unfold sexRowMatches; infer_instance

/-- A one-test dictionary whose `both` row carries the reference range
`70-99` (the example of §8.2 of the spec). -/
def demoDict : BioDict := [("Glucose (Fasting)", ⟨"mg/dL", [⟨"both", "70-99"⟩]⟩)]

/-! ### LLM verifier (src/llm_verifier.py) -/

/-- One regex-extracted row as the verifier sees it (`test_name`, `value`,
`unit` of the report DataFrame). -/
structure ExtractedRow where
  test_name : String
  value : ℚ
  unit : String
deriving DecidableEq

/-- One entry of the audit's `verifications` array.  Each field is
`none` when the key is absent from the JSON object (`dict.get` then
supplies the default); for `correct_value`/`correct_unit` the inner
`Option` is the JSON value itself, which may be `null` (= Python
`None`). -/
structure Verification where
  test : String
  status : Option String
  correct_value : Option (Option ℚ)
  correct_unit : Option (Option String)
  range_flag : Option String
  range_note : Option String
  unit_note : Option String
  confidence : Option String
  note : Option String
deriving DecidableEq

/-- One entry of the audit's `missed_tests` array (`none` = key absent or
JSON `null`, which `dict.get` treats alike here). -/
structure MissedTest where
  test : Option String
  value : Option ℚ
  unit : Option String
  range_flag : Option String
  confidence : Option String
  note : Option String
deriving DecidableEq

/-- The parsed audit response as `build_diff` consumes it. -/
structure LLMResult where
  error : Option String
  verifications : List Verification
  missed_tests : List MissedTest
deriving DecidableEq

/-- One row of the diff DataFrame produced by `build_diff`. -/
structure DiffRow where
  test_name : String
  regex_value : Option ℚ
  regex_unit : String
  llm_value : Option ℚ
  llm_unit : Option String
  status : String
  range_flag : String
  range_note : String
  unit_note : String
  confidence : String
  note : String
  needs_review : Bool
deriving DecidableEq

/-- Python `str(x)` for an optional string (`str(None) = "None"`). -/
def pyStr : Option String → String
  | none => "None"
  | some s => s

/-- `verif_map = {v["test"]: v for v in ...}` followed by `.get(test)`:
in a dict comprehension the last entry for a test wins. -/
def lookupVerif (vs : List Verification) (t : String) : Option Verification :=
  vs.reverse.find? (fun v => v.test == t)

/-- `build_diff` (src/llm_verifier.py lines 218-306). -/
def build_diff (df : List ExtractedRow) (llm : LLMResult) : List DiffRow :=
  if llm.error.isSome then []
  else
    df.map (fun row =>
      match lookupVerif llm.verifications row.test_name with
      | none =>
          { test_name := row.test_name, regex_value := some row.value,
            regex_unit := row.unit, llm_value := some row.value,
            llm_unit := some row.unit, status := "confirmed",
            range_flag := "unknown", range_note := "", unit_note := "",
            confidence := "high", note := "", needs_review := false }
      | some v =>
          let llm_val : Option ℚ := v.correct_value.getD (some row.value)
          let llm_unit : Option String := v.correct_unit.getD (some row.unit)
          let status := v.status.getD "confirmed"
          let conf := v.confidence.getD "high"
          let rflag := v.range_flag.getD "unknown"
          let value_changed : Bool :=
            match llm_val with
            | some x => decide (|x - row.value| > 1/1000)
            | none => false
          let unit_changed : Bool :=
            pyStrip (pyStr llm_unit) != pyStrip row.unit &&
            pyStrip (pyStr llm_unit) != ""
          let needs_review : Bool :=
            (status == "corrected" && (value_changed || unit_changed)) ||
            conf == "low" ||
            ["HIGH", "LOW", "CRITICAL_HIGH", "CRITICAL_LOW"].contains rflag
          { test_name := row.test_name, regex_value := some row.value,
            regex_unit := row.unit, llm_value := llm_val, llm_unit := llm_unit,
            status := status, range_flag := rflag,
            range_note := v.range_note.getD "", unit_note := v.unit_note.getD "",
            confidence := conf, note := v.note.getD "",
            needs_review := needs_review })
    ++ llm.missed_tests.map (fun m =>
      { test_name := m.test.getD "Unknown", regex_value := none, regex_unit := "",
        llm_value := m.value, llm_unit := some (m.unit.getD ""),
        status := "missed_by_regex", range_flag := m.range_flag.getD "unknown",
        range_note := "", unit_note := "", confidence := m.confidence.getD "high",
        note := m.note.getD "Found in report but not extracted by regex",
        needs_review := true })

/-- One stored report row, with the fields `apply_corrections` reads or
writes; `report_date` and `patient_name` stand for the metadata columns
that a template clone copies verbatim. -/
structure ReportRow where
  test_name : String
  value : Option ℚ
  unit : Option String
  status : String
  report_date : String
  patient_name : String
  llm_verified : Bool
  llm_corrected : Bool
deriving DecidableEq

/-- The metadata-correction payload of `get_metadata_corrections`. -/
structure MetaCorrections where
  date_correction : Option String
  name_correction : Option String
deriving DecidableEq

/-- The unconditional metadata pass of `apply_corrections`: a date or name
correction is written to every row. -/
def apply_meta (meta : Option MetaCorrections) (df : List ReportRow) : List ReportRow :=
  match meta with
  | none => df
  | some mc =>
    let df := match mc.date_correction with
      | some d => df.map (fun r => { r with report_date := d })
      | none => df
    match mc.name_correction with
    | some n => df.map (fun r => { r with patient_name := n })
    | none => df

/-- The `correction_map` of `apply_corrections` looked up at one test: the
last diff row for that test that is accepted, has status `corrected` or
`missed_by_regex`, and carries a non-`None` proposed value (later dict
assignments overwrite earlier ones). -/
def correctionFor (diff : List DiffRow) (accepted : List String) (t : String) :
    Option DiffRow :=
  (diff.filter (fun row => accepted.contains row.test_name &&
      (row.status == "corrected" || row.status == "missed_by_regex") &&
      row.llm_value.isSome)).reverse.find? (fun row => row.test_name == t)

/-- The value/unit overwrite loop of `apply_corrections`. -/
def apply_value_corrections (diff : List DiffRow) (accepted : List String)
    (df : List ReportRow) : List ReportRow :=
  df.map (fun r =>
    match correctionFor diff accepted r.test_name with
    | some c => { r with value := c.llm_value, unit := c.llm_unit,
                         llm_verified := true, llm_corrected := true }
    | none => r)

/-- `missed_accepted`: the diff rows with status `missed_by_regex` whose
test is in the accepted set. -/
def missedAccepted (diff : List DiffRow) (accepted : List String) : List DiffRow :=
  diff.filter (fun row => row.status == "missed_by_regex" &&
    accepted.contains row.test_name)

/-- A brand-new report row for an accepted missed test: the report's first
row as metadata template, with the audited value/unit and the unknown
status sentinel. -/
def mkMissedRow (template : ReportRow) (m : DiffRow) : ReportRow :=
  { template with test_name := m.test_name, value := m.llm_value,
                  unit := m.llm_unit, status := "—", llm_verified := true,
                  llm_corrected := true }

/-- The final `missed_tests` block of `apply_corrections`: when both the
report and the accepted-missed set are non-empty, append one cloned row
per accepted missed test, with the report's first row as template. -/
def append_missed (diff : List DiffRow) (accepted : List String)
    (df2 : List ReportRow) : List ReportRow :=
  match df2.head? with
  | some t =>
      if (missedAccepted diff accepted).isEmpty then df2
      else df2 ++ (missedAccepted diff accepted).map (mkMissedRow t)
  | none => df2

/-- `apply_corrections` (src/llm_verifier.py lines 358-414): metadata pass,
then the value/unit overwrite loop, then the missed-test append. -/
def apply_corrections (df : List ReportRow) (diff : List DiffRow)
    (accepted : List String) (meta : Option MetaCorrections) : List ReportRow :=
  if diff.isEmpty then df
  else append_missed diff accepted
    (apply_value_corrections diff accepted (apply_meta meta df))

/-! ### `verify_with_llm` control flow -/

/-- The environment of one `verify_with_llm` call: the optional `api_key`
argument, `os.environ.get("ANTHROPIC_API_KEY", "")`, whether the
`anthropic` package imports, and the outcome of the API call
(`Except.error msg` = the client raised). -/
structure LLMEnv where
  api_key : Option String
  env_key : String
  anthropic_installed : Bool
  api_call : Except String String

/-- `key = api_key or os.environ.get("ANTHROPIC_API_KEY", "")`; Python
`or` takes the right operand when the left is `None` or the empty
string. -/
def effectiveKey (e : LLMEnv) : String :=
  match e.api_key with
  | some k => if k = "" then e.env_key else k
  | none => e.env_key

/-- A successfully parsed audit object (only the keys the error-path claim
mentions are modelled). -/
structure ParsedAudit where
  verifications : List Verification
  missed_tests : List MissedTest

/-- What `verify_with_llm` returns to its caller. -/
structure VerifyResult where
  error : Option String
  verifications : List Verification
  missed_tests : List MissedTest
  raw_response : Option String

/-- `verify_with_llm` (src/llm_verifier.py lines 149-211).  `parseAudit`
stands for the composite of Markdown code-fence stripping and
`json.loads` — external-library behaviour; `none` = a `JSONDecodeError`.
The DataFrame argument feeds only the prompt text and cannot change which
branch returns. -/
def verify_with_llm (e : LLMEnv) (parseAudit : String → Option ParsedAudit)
    (df : List ExtractedRow) : VerifyResult :=
  if effectiveKey e = "" then
    { error := some "No ANTHROPIC_API_KEY found. Set it in Streamlit secrets.",
      verifications := [], missed_tests := [], raw_response := none }
  else if !e.anthropic_installed then
    { error := some "anthropic package not installed. Add it to requirements.txt.",
      verifications := [], missed_tests := [], raw_response := none }
  else
    let _prompt_rows := df.map (fun r => (r.test_name, r.value, r.unit))
    match e.api_call with
    | .error msg =>
        { error := some ("LLM API error: " ++ msg),
          verifications := [], missed_tests := [], raw_response := none }
    | .ok raw =>
        match parseAudit raw with
        | none =>
            { error := some "LLM returned invalid JSON",
              verifications := [], missed_tests := [], raw_response := some raw }
        | some p =>
            { error := none, verifications := p.verifications,
              missed_tests := p.missed_tests, raw_response := some raw }

/-! ### Patient store (src/lab_extractor.py) -/

/-- One stored result row, with the columns the Patient Store operations
read or write. -/
structure StoreRow where
  test_name : String
  report_date : String
  value : ℚ
  unit : String
  status : String
  patient_id : String
  patient_name : String
deriving DecidableEq

/-- The duplicate key of `save_report` (`subset=["test_name", "report_date"]`). -/
def saveKey (r : StoreRow) : String × String := (r.test_name, r.report_date)

/-- The duplicate key of `merge_into_patient` (`subset=["report_date", "test_name"]`). -/
def mergeKey (r : StoreRow) : String × String := (r.report_date, r.test_name)

/-- pandas `drop_duplicates(subset=key, keep="first")`, with an explicit
set of already-seen keys. -/
def dedupByKey {α κ : Type} [DecidableEq κ] (key : α → κ) : List κ → List α → List α
  | _, [] => []
  | seen, r :: rs =>
      if key r ∈ seen then dedupByKey key seen rs
      else r :: dedupByKey key (key r :: seen) rs

/-- The `sort_values(["test_name", "report_date"])` order: lexicographic on
the two string columns. -/
def rowLE (a b : StoreRow) : Prop :=
  a.test_name < b.test_name ∨ (a.test_name = b.test_name ∧ a.report_date ≤ b.report_date)

instance : DecidableRel rowLE := by
  unfold rowLE; infer_instance

instance : IsTotal StoreRow rowLE where
  total a b := by
    unfold rowLE
    rcases lt_trichotomy a.test_name b.test_name with h | h | h
    · exact Or.inl (Or.inl h)
    · rcases le_total a.report_date b.report_date with h2 | h2
      · exact Or.inl (Or.inr ⟨h, h2⟩)
      · exact Or.inr (Or.inr ⟨h.symm, h2⟩)
    · exact Or.inr (Or.inl h)

instance : IsTrans StoreRow rowLE where
  trans a b c hab hbc := by
    unfold rowLE at *
    rcases hab with h1 | ⟨h1, h1'⟩ <;> rcases hbc with h2 | ⟨h2, h2'⟩
    · exact Or.inl (h1.trans h2)
    · exact Or.inl (h2 ▸ h1)
    · exact Or.inl (h1 ▸ h2)
    · exact Or.inr ⟨h1.trans h2, h1'.trans h2'⟩

/-- The sort of `save_report`.  pandas' quicksort is modelled by an
insertion sort: after the duplicate drop the `(test_name, report_date)`
keys are pairwise distinct, so every correct sort produces the same
list. -/
def sortRows (l : List StoreRow) : List StoreRow := l.insertionSort rowLE

/-- `save_report` (src/lab_extractor.py lines 834-846).  The `store`
argument is the profile file's current content (`none` = no file yet); the
result is its content after the call. -/
def save_report (store : Option (List StoreRow)) (df : List StoreRow) :
    Option (List StoreRow) :=
  match df with
  | [] => store
  | d0 :: _ =>
    match store with
    | none => some (sortRows (dedupByKey saveKey [] df))
    | some existing =>
      let existing_name := match existing.head? with
        | some e => e.patient_name
        | none => ""
      let ex := if existing_name.length < d0.patient_name.length then
          existing.map (fun r => { r with patient_name := d0.patient_name })
        else existing
      some (sortRows (dedupByKey saveKey [] (ex ++ df)))

/-- `merge_into_patient` (src/lab_extractor.py lines 883-904), modelled on
the two profiles involved: the result is `(ok, new source, new target)`.
The outer `Option` is `none` for the `IndexError` a completely empty
target file would raise at `iloc[0]`. -/
def merge_into_patient (source target : Option (List StoreRow)) (target_id : String) :
    Option (Bool × Option (List StoreRow) × Option (List StoreRow)) :=
  match source, target with
  | none, t => some (false, none, t)
  | s, none => some (false, s, none)
  | some s, some t =>
    match t.head? with
    | none => none
    | some t0 =>
      let s2 := s.map (fun r => { r with patient_id := target_id,
                                         patient_name := t0.patient_name })
      some (true, none, some (dedupByKey mergeKey [] (t ++ s2)))

/-! ### Trend engine (src/lab_extractor.py) -/

/-- One history row as `generate_trends` sees it after `load_history`:
`report_date = none` is a `NaT` (unparsable date), dropped by `dropna`;
`unit = none` is a `NaN` unit cell. -/
structure HistRow where
  test_name : String
  report_date : Option String
  value : ℚ
  unit : Option String
  status : String
deriving DecidableEq

/-- Python `s[:n]`. -/
def pyTake (s : String) (n : Nat) : String := String.mk (s.toList.take n)

/-- Round to the nearest integer, ties to even — the rounding of Python's
`round` (on the exact rational; no claim depends on the tie behaviour). -/
def roundHalfEven (q : ℚ) : ℤ :=
  let f := ⌊q⌋
  if q - f < 1/2 then f
  else if 1/2 < q - f then f + 1
  else if Even f then f else f + 1

/-- Python `round(x, 1)`. -/
def round1 (q : ℚ) : ℚ := (roundHalfEven (q * 10) : ℚ) / 10

/-- The `sort_values("report_date")` order inside one test's group (all
rows there carry a date; ISO date strings compare chronologically). -/
def dateLE (a b : HistRow) : Prop := a.report_date.getD "" ≤ b.report_date.getD ""

instance : DecidableRel dateLE := by
  unfold dateLE; infer_instance

/-- One test's group after `dropna`, `sort_values("report_date")` and
`drop_duplicates("report_date")` (keep first). -/
def trendGroup (h : List HistRow) (t : String) : List HistRow :=
  dedupByKey (fun r => r.report_date) []
    (((h.filter (fun r => r.test_name == t)).filter
        (fun r => r.report_date.isSome)).insertionSort dateLE)

/-- One row of the trends table. -/
structure TrendRow where
  test_name : String
  first_date : String
  first_value : ℚ
  latest_date : String
  latest_value : ℚ
  unit : String
  change_pct : ℚ
  trend : String
  latest_status : String
  n_reports : Nat
deriving DecidableEq

/-- The body of the `generate_trends` loop for one test: `none` when the
group has fewer than two distinct dated entries. -/
def trendFor (h : List HistRow) (t : String) : Option TrendRow :=
  match trendGroup h t with
  | f :: b :: rest =>
      let latest := (b :: rest).getLast (List.cons_ne_nil b rest)
      let delta := latest.value - f.value
      some { test_name := t,
             first_date := pyTake (f.report_date.getD "") 10,
             first_value := f.value,
             latest_date := pyTake (latest.report_date.getD "") 10,
             latest_value := latest.value,
             unit := latest.unit.getD "",
             change_pct := if f.value ≠ 0 then round1 (delta / f.value * 100) else 0,
             trend := if 0 < delta then "↑" else "↓",
             latest_status := latest.status,
             n_reports := (f :: b :: rest).length }
  | _ => none

/-- `groupby("test_name")` iterates the distinct test names in ascending
order. -/
def sortedTestNames (h : List HistRow) : List String :=
  dedupByKey id [] ((h.map (·.test_name)).insertionSort (· ≤ ·))

/-- The final `sort_values("change_%", key=abs, ascending=False)`. -/
def pctGE (a b : TrendRow) : Prop := |b.change_pct| ≤ |a.change_pct|

instance : DecidableRel pctGE := by
  unfold pctGE; infer_instance

/-- `generate_trends` (src/lab_extractor.py lines 941-968). -/
def generate_trends (h : List HistRow) : List TrendRow :=
  ((sortedTestNames h).filterMap (trendFor h)).insertionSort pctGE

/-- The reassignment step of `merge_into_patient`: every source row gets
the target's identifier and the target's first-row name. -/
def mergeReassign (s : List StoreRow) (target_id name : String) : List StoreRow :=
  s.map (fun r => { r with patient_id := target_id, patient_name := name })

/-- The merged target content: the target's original rows followed by the
reassigned source rows whose `(report_date, test_name)` pair is new. -/
def mergedRows (s t : List StoreRow) (target_id name : String) : List StoreRow :=
  t ++ (mergeReassign s target_id name).filter
    (fun r => decide (mergeKey r ∉ t.map mergeKey))

/-! ### Concrete fixtures for the diff and correction claims -/

/-- A one-row extracted report. -/
def c4df : List ExtractedRow := [⟨"Glucose (Fasting)", 100, "mg/dL"⟩]

/-- An audit that confirms the row but with low confidence. -/
def c4llmLow : LLMResult :=
  { error := none,
    verifications := [{ test := "Glucose (Fasting)", status := some "confirmed",
                        correct_value := none, correct_unit := none, range_flag := none,
                        range_note := none, unit_note := none, confidence := some "low",
                        note := none }],
    missed_tests := [] }

/-- An audit that does not mention the extracted test at all. -/
def c4llmEmpty : LLMResult := { error := none, verifications := [], missed_tests := [] }

/-- The diff row `build_diff` produces for a test the audit never
mentioned. -/
def c4row : DiffRow :=
  { test_name := "Glucose (Fasting)", regex_value := some 100, regex_unit := "mg/dL",
    llm_value := some 100, llm_unit := some "mg/dL", status := "confirmed",
    range_flag := "unknown", range_note := "", unit_note := "", confidence := "high",
    note := "", needs_review := false }

/-- A history with a single dated Haemoglobin reading (no trend row). -/
def c7hist : List HistRow :=
  [⟨"Haemoglobin", some "2024-01-01", 14, some "g/dL", "Normal"⟩]

/-- Target profile for the merge claim: two rows, distinct keys. -/
def c6target : List StoreRow :=
  [⟨"Haemoglobin", "2024-01-01", 14, "g/dL", "Normal", "P0001", "BEVERLEY BARNES"⟩,
   ⟨"TSH", "2024-01-01", 2, "mIU/L", "Normal", "P0001", "BEVERLEY BARNES"⟩]

/-- Source profile for the merge claim: one row with a fresh key. -/
def c6source : List StoreRow :=
  [⟨"Haemoglobin", "2024-02-01", 13, "g/dL", "Normal", "P0002", "BEVERLEY B"⟩]

/-- Stored profile for the save-report claim. -/
def c5store : List StoreRow :=
  [⟨"Haemoglobin", "2024-01-01", 14, "g/dL", "Normal", "P0001", "JANE DOE"⟩]

/-- Freshly extracted report for the save-report claim. -/
def c5df : List StoreRow :=
  [⟨"TSH", "2024-02-01", 2, "mIU/L", "Normal", "P0001", "JANE DOE"⟩]

/-! ### SHA-256 (`hashlib.sha256`), over byte lists with `Nat` words mod 2^32 -/

/-- Truncate to a 32-bit word. -/
def w32 (n : Nat) : Nat := n % 4294967296

/-- 32-bit rotate right. -/
def rotr32 (n x : Nat) : Nat := w32 ((x >>> n) ||| (x <<< (32 - n)))

/-- The 64 SHA-256 round constants, grouped eight to a row. -/
def sha256Krows : List (List Nat) :=
  [[0x428a2f98, 0x71374491, 0xb5c0fbcf, 0xe9b5dba5,
    0x3956c25b, 0x59f111f1, 0x923f82a4, 0xab1c5ed5],
   [0xd807aa98, 0x12835b01, 0x243185be, 0x550c7dc3,
    0x72be5d74, 0x80deb1fe, 0x9bdc06a7, 0xc19bf174],
   [0xe49b69c1, 0xefbe4786, 0x0fc19dc6, 0x240ca1cc,
    0x2de92c6f, 0x4a7484aa, 0x5cb0a9dc, 0x76f988da],
   [0x983e5152, 0xa831c66d, 0xb00327c8, 0xbf597fc7,
    0xc6e00bf3, 0xd5a79147, 0x06ca6351, 0x14292967],
   [0x27b70a85, 0x2e1b2138, 0x4d2c6dfc, 0x53380d13,
    0x650a7354, 0x766a0abb, 0x81c2c92e, 0x92722c85],
   [0xa2bfe8a1, 0xa81a664b, 0xc24b8b70, 0xc76c51a3,
    0xd192e819, 0xd6990624, 0xf40e3585, 0x106aa070],
   [0x19a4c116, 0x1e376c08, 0x2748774c, 0x34b0bcb5,
    0x391c0cb3, 0x4ed8aa4a, 0x5b9cca4f, 0x682e6ff3],
   [0x748f82ee, 0x78a5636f, 0x84c87814, 0x8cc70208,
    0x90befffa, 0xa4506ceb, 0xbef9a3f7, 0xc67178f2]]

/-- The 64 SHA-256 round constants. -/
def sha256K : List Nat := sha256Krows.flatten

/-- The eight working variables of one compression round. -/
structure Sha256State where
  a : Nat
  b : Nat
  c : Nat
  d : Nat
  e : Nat
  f : Nat
  g : Nat
  h : Nat

/-- The SHA-256 initial hash value. -/
def sha256Init : Sha256State :=
  ⟨0x6a09e667, 0xbb67ae85, 0x3c6ef372, 0xa54ff53a,
   0x510e527f, 0x9b05688c, 0x1f83d9ab, 0x5be0cd19⟩

def sha256s0 (x : Nat) : Nat := (rotr32 7 x) ^^^ (rotr32 18 x) ^^^ (x >>> 3)

def sha256s1 (x : Nat) : Nat := (rotr32 17 x) ^^^ (rotr32 19 x) ^^^ (x >>> 10)

def sha256S0 (x : Nat) : Nat := (rotr32 2 x) ^^^ (rotr32 13 x) ^^^ (rotr32 22 x)

def sha256S1 (x : Nat) : Nat := (rotr32 6 x) ^^^ (rotr32 11 x) ^^^ (rotr32 25 x)

def sha256Ch (e f g : Nat) : Nat := (e &&& f) ^^^ ((0xffffffff ^^^ e) &&& g)

def sha256Maj (a b c : Nat) : Nat := (a &&& b) ^^^ (a &&& c) ^^^ (b &&& c)

/-- Extend a 16-word block to the 64-word message schedule. -/
def sha256Schedule (block : List Nat) : List Nat :=
  (List.range 64).foldl (fun ws i =>
    if i < 16 then ws ++ [block.getD i 0]
    else ws ++ [w32 (sha256s1 (ws.getD (i-2) 0) + ws.getD (i-7) 0 +
      sha256s0 (ws.getD (i-15) 0) + ws.getD (i-16) 0)]) []

/-- One SHA-256 compression step on a 16-word block. -/
def sha256Compress (st : Sha256State) (block : List Nat) : Sha256State :=
  let ws := sha256Schedule block
  let fin := (List.range 64).foldl (fun s i =>
    let t1 := w32 (s.h + sha256S1 s.e + sha256Ch s.e s.f s.g +
      sha256K.getD i 0 + ws.getD i 0)
    let t2 := w32 (sha256S0 s.a + sha256Maj s.a s.b s.c)
    ⟨w32 (t1 + t2), s.a, s.b, s.c, w32 (s.d + t1), s.e, s.f, s.g⟩) st
  ⟨w32 (st.a + fin.a), w32 (st.b + fin.b), w32 (st.c + fin.c), w32 (st.d + fin.d),
   w32 (st.e + fin.e), w32 (st.f + fin.f), w32 (st.g + fin.g), w32 (st.h + fin.h)⟩

/-- SHA-256 padding: `0x80`, zeros to 56 mod 64, 8-byte big-endian bit
length. -/
def sha256Pad (msg : List Nat) : List Nat :=
  let l := msg.length
  let z := (119 - (l % 64)) % 64
  let bl := 8 * l
  msg ++ [0x80] ++ List.replicate z 0 ++
    [bl >>> 56 % 256, bl >>> 48 % 256, bl >>> 40 % 256, bl >>> 32 % 256,
     bl >>> 24 % 256, bl >>> 16 % 256, bl >>> 8 % 256, bl % 256]

/-- Split into 64-byte chunks. -/
def chunks64 (l : List Nat) : List (List Nat) :=
  if h : l = [] then []
  else l.take 64 :: chunks64 (l.drop 64)
termination_by l.length
decreasing_by
  simp only [List.length_drop]
  have : 0 < l.length := List.length_pos.mpr h
  omega

/-- Group bytes into big-endian 32-bit words. -/
def bytesToWords : List Nat → List Nat
  | b0 :: b1 :: b2 :: b3 :: rest =>
      ((b0 <<< 24) ||| (b1 <<< 16) ||| (b2 <<< 8) ||| b3) :: bytesToWords rest
  | _ => []

/-- The SHA-256 digest of a byte message, as the eight hash words. -/
def sha256Words (msg : List Nat) : Sha256State :=
  (chunks64 (sha256Pad msg)).foldl
    (fun st blk => sha256Compress st (bytesToWords blk)) sha256Init

/-- Lower-case hex digit. -/
def hexChar (n : Nat) : Char := if n < 10 then Char.ofNat (48 + n) else Char.ofNat (87 + n)

/-- Two lower-case hex digits of one byte. -/
def byteHex (b : Nat) : List Char := [hexChar (b / 16), hexChar (b % 16)]

/-- The eight hex digits of one big-endian word. -/
def wordHexChars (w : Nat) : List Char :=
  byteHex (w >>> 24 % 256) ++ byteHex (w >>> 16 % 256) ++
  byteHex (w >>> 8 % 256) ++ byteHex (w % 256)

/-- `hashlib.sha256(...).hexdigest()` as a character list. -/
def sha256hexChars (msg : List Nat) : List Char :=
  (([(sha256Words msg).a, (sha256Words msg).b, (sha256Words msg).c,
     (sha256Words msg).d, (sha256Words msg).e, (sha256Words msg).f,
     (sha256Words msg).g, (sha256Words msg).h]).map wordHexChars).join

/-- UTF-8 bytes of one character (Python `str.encode()`). -/
def utf8Char (c : Char) : List Nat :=
  let n := c.toNat
  if n < 0x80 then [n]
  else if n < 0x800 then [0xC0 ||| (n >>> 6), 0x80 ||| (n &&& 0x3F)]
  else if n < 0x10000 then
    [0xE0 ||| (n >>> 12), 0x80 ||| ((n >>> 6) &&& 0x3F), 0x80 ||| (n &&& 0x3F)]
  else
    [0xF0 ||| (n >>> 18), 0x80 ||| ((n >>> 12) &&& 0x3F),
     0x80 ||| ((n >>> 6) &&& 0x3F), 0x80 ||| (n &&& 0x3F)]

/-- UTF-8 bytes of a string. -/
def utf8Encode (s : String) : List Nat := (s.toList.map utf8Char).join

/-! ### Patient-identity resolution (src/lab_extractor.py) -/

/-- Python regex word characters (`\w`), over the ASCII range the reports
use. -/
def isWordChar (c : Char) : Bool := c.isAlphanum || c = '_'

/-- The alternation of `re.sub(r'\b(Mr|Mrs|Ms|Dr|Miss)\.?\s*', ...)` in
`_clean_name`, in the engine's left-to-right order. -/
def TITLE_ALTS : List String := ["Mr", "Mrs", "Ms", "Dr", "Miss"]

/-- Try to match one title alternative (case-insensitively), then the
optional dot and the whitespace run.  Returns the remaining input and
whether the next scan position sits at a word boundary (true iff the last
consumed character was the dot or whitespace). -/
def matchTitleAlt (cs : List Char) (alt : String) : Option (List Char × Bool) :=
  let a := alt.toList
  if (cs.take a.length).map Char.toLower = a.map Char.toLower then
    let p := match cs.drop a.length with
      | '.' :: r => (true, r)
      | other => (false, other)
    some (p.2.dropWhile Char.isWhitespace,
          p.1 || !(p.2.takeWhile Char.isWhitespace).isEmpty)
  else none

/-- One attempted title match: the regex alternation tries the
alternatives in order, and the rest of the pattern is optional, so the
first literal that matches wins. -/
def matchTitle (cs : List Char) : Option (List Char × Bool) :=
  TITLE_ALTS.findSome? (matchTitleAlt cs)

theorem matchTitleAlt_length {cs rest : List Char} {bnd : Bool} {alt : String}
    (halt : 2 ≤ alt.toList.length)
    (h : matchTitleAlt cs alt = some (rest, bnd)) : rest.length < cs.length := by
  unfold matchTitleAlt at h
  dsimp only at h
  split_ifs at h with htake
  · have hlen : alt.toList.length ≤ cs.length := by
      have hc := congrArg List.length htake
      simp only [List.length_map, List.length_take] at hc
      omega
    have hr : rest = (match cs.drop alt.toList.length with
        | '.' :: r => (true, r)
        | other => (false, other)).2.dropWhile Char.isWhitespace :=
      (congrArg Prod.fst (Option.some.inj h)).symm
    have h2 : (match cs.drop alt.toList.length with
        | '.' :: r => (true, r)
        | other => (false, other)).2.length ≤ (cs.drop alt.toList.length).length := by
      split
      · rename_i r heq
        have hl : (cs.drop alt.toList.length).length = r.length + 1 := by
          rw [heq]; rfl
        show r.length ≤ (cs.drop alt.toList.length).length
        omega
      · exact Nat.le_refl _
    have h3 : rest.length ≤ (match cs.drop alt.toList.length with
        | '.' :: r => (true, r)
        | other => (false, other)).2.length := by
      rw [hr]
      exact (List.dropWhile_sublist _).length_le
    have h4 : (cs.drop alt.toList.length).length = cs.length - alt.toList.length :=
      List.length_drop _ _
    omega

theorem matchTitle_length {cs rest : List Char} {bnd : Bool}
    (h : matchTitle cs = some (rest, bnd)) : rest.length < cs.length := by
  unfold matchTitle at h
  obtain ⟨alt, halt, he⟩ := List.exists_of_findSome?_eq_some h
  refine matchTitleAlt_length ?_ he
  simp only [TITLE_ALTS] at halt
  fin_cases halt <;> decide

/-- The scan of `re.sub(r'\b(Mr|Mrs|Ms|Dr|Miss)\.?\s*', '', name, re.I)`:
`bnd` says whether the current position is at a word boundary (for a
pattern starting with a word character, `\b` holds iff the previous
character is absent or a non-word character). -/
def titleSub (bnd : Bool) (l : List Char) : List Char :=
  match l with
  | [] => []
  | c :: cs =>
    if bnd then
      match hm : matchTitle (c :: cs) with
      | some (rest, bnd2) => titleSub bnd2 rest
      | none => c :: titleSub (!(isWordChar c)) cs
    else c :: titleSub (!(isWordChar c)) cs
termination_by l.length
decreasing_by
  · exact matchTitle_length hm
  · simp
  · simp

/-- The scan of `re.sub(r'\b[A-Z]\d+\b', '', name)`: an ASCII capital
followed by a digit run, word-bounded on both sides, is removed.  Failed
attempts advance one character (backtracking inside `\d+` cannot rescue a
failed trailing `\b`, since every shorter run ends before a digit). -/
def idTokenSub (bnd : Bool) (l : List Char) : List Char :=
  match l with
  | [] => []
  | c :: cs =>
    if bnd && ('A' ≤ c && c ≤ 'Z') then
      let ds := cs.takeWhile Char.isDigit
      if !ds.isEmpty &&
          (match (cs.drop ds.length).head? with
           | some nc => !isWordChar nc
           | none => true) then
        idTokenSub false (cs.drop ds.length)
      else c :: idTokenSub false cs
    else c :: idTokenSub (!(isWordChar c)) cs
termination_by l.length
decreasing_by
  · simp only [List.length_drop, List.length_cons]
    omega
  · simp
  · simp

/-- `re.sub(r'\s+', ' ', name)`. -/
def collapseWs (l : List Char) : List Char :=
  match l with
  | [] => []
  | c :: cs =>
    if Char.isWhitespace c then ' ' :: collapseWs (cs.dropWhile Char.isWhitespace)
    else c :: collapseWs cs
termination_by l.length
decreasing_by
  · have := (List.dropWhile_sublist (l := cs) Char.isWhitespace).length_le
    simp only [List.length_cons]
    omega
  · simp

/-- `.strip()` on a character list. -/
def stripChars (l : List Char) : List Char :=
  ((l.dropWhile Char.isWhitespace).reverse.dropWhile Char.isWhitespace).reverse

/-- `_clean_name` (src/lab_extractor.py lines 449-452): strip titles,
strip `[A-Z]\d+` lab-ID tokens, collapse whitespace, strip, upper-case. -/
def clean_name (name : String) : String :=
  String.mk ((stripChars (collapseWs (idTokenSub true
    (titleSub true name.toList)))).map Char.toUpper)

/-- Python `str.split()` (split on whitespace runs, no empty pieces). -/
def pySplit (s : String) : List String :=
  (s.split Char.isWhitespace).filter (fun w => w ≠ "")

/-- The first row of one stored profile CSV, as `_lookup_existing_pid`
reads it (`pd.read_csv(csv_file, nrows=1)`). -/
structure StoredProfile where
  patient_id : String
  patient_name : String
  gender : String
deriving DecidableEq

/-- `_lookup_existing_pid` (src/lab_extractor.py lines 497-536).  The
`phone` argument is accepted but, as in the source, never used in the
match. -/
def lookup_existing_pid (store : List StoredProfile)
    (first_name gender phone : String) : Option String :=
  store.findSome? (fun p =>
    let stored_name := clean_name p.patient_name
    let stored_gender := pyUpper p.gender
    if stored_gender ≠ gender then none
    else
      let stored_first := (pySplit stored_name).headD ""
      if stored_first ≠ pyUpper first_name then none
      else if 4 ≤ first_name.length then some p.patient_id
      else none)

/-- The metadata dict `make_patient_id` receives. -/
structure PatientMeta where
  name : String
  gender : String
  phone : String
  age : Option Nat
deriving DecidableEq

/-- `"P" + sha256(key).hexdigest()[:8].upper()`. -/
def pidHash (key : String) : String :=
  String.mk (((sha256hexChars (utf8Encode key)).take 8).map Char.toUpper)

/-- The last ten digits of the phone field
(`re.sub(r"\D", "", phone)[-10:]`). -/
def phoneDigits (phone : String) : String :=
  String.mk ((phone.toList.filter Char.isDigit).drop
    ((phone.toList.filter Char.isDigit).length - 10))

/-- The real words of the cleaned name (length at least 2). -/
def realWords (name : String) : List String :=
  (pySplit (clean_name name)).filter (fun w => 2 ≤ w.length)

/-- `make_patient_id` (src/lab_extractor.py lines 455-494). -/
def make_patient_id (meta : PatientMeta) (store : List StoredProfile) : String :=
  let gender := pyUpper meta.gender
  let phone := phoneDigits meta.phone
  let real_words := realWords meta.name
  if 2 ≤ real_words.length then
    "P" ++ pidHash ("FULLNAME|" ++ String.intercalate "_" real_words ++ "|" ++ gender)
  else
    let first := real_words.headD "UNKNOWN"
    match lookup_existing_pid store first gender phone with
    | some pid => pid
    | none =>
      if phone ≠ "" ∧ 8 ≤ phone.length then
        "P" ++ pidHash ("TRUNCATED|" ++ first ++ "|" ++ gender ++ "|" ++ phone)
      else
        let decade := match meta.age with
          | some a => if a ≠ 0 then toString (a / 10 * 10) else "XX"
          | none => "XX"
        "P" ++ pidHash ("FIRST|" ++ first ++ "|" ++ gender ++ "|" ++ decade)

theorem matchRows_eq_find (g : String) :
    ∀ (rows : List SexRow) (acc : Option SexRow),
      (∃ sr ∈ rows, sexRowMatches g sr) →
      matchRows g rows acc = rows.find? (fun sr => decide (sexRowMatches g sr))
  | [], _, h => by simp at h
  | sr :: rest, acc, h => by
    by_cases hm : sexRowMatches g sr
    · have hb : sr.sex ≠ "both" := by
        rcases hm with ⟨h1, _⟩ | ⟨h1, _⟩ <;> simp [h1]
      rcases hm with ⟨h1, h2⟩ | ⟨h1, h2⟩ <;>
        simp [matchRows, List.find?, hb, h1, h2, sexRowMatches]
    · have hr : ∃ s ∈ rest, sexRowMatches g s := by
        rcases h with ⟨s, hs, hms⟩
        rcases List.mem_cons.mp hs with rfl | hs'
        · exact absurd hms hm
        · exact ⟨s, hs', hms⟩
      have hnm : ¬ ((sr.sex = "male" ∧ g = "M") ∨ (sr.sex = "female" ∧ g = "F")) := hm
      by_cases hb : sr.sex = "both" <;>
        simp [matchRows, List.find?, hb, hnm, hm, matchRows_eq_find g rest _ hr,
          sexRowMatches]

/-- C1: for a test whose matched range row parses as a closed interval
`[low, high]`, `flag_status` returns the LOW label exactly when the
unit-converted value is strictly below `low`, the HIGH label exactly when
it is strictly above `high`, and `Normal` exactly when it lies in the
closed interval; concretely, for range `70-99`, `69.99 ↦ LOW`,
`70 ↦ Normal`, `99 ↦ Normal`, `99.01 ↦ HIGH`. -/
theorem claim1_flag_status_interval_bounds
    (dict : BioDict) (canonical : String) (bm : Biomarker) (sr : SexRow)
    (value : ℚ) (unit gender : String) (low high : ℚ)
    (hbm : dictGet dict canonical = some bm)
    (hsr : matchRows (pyUpper gender) bm.sex_rows none = some sr)
    (hr : parse_range sr.normal_range = some (some low, some high))
    (hlh : low ≤ high) :
    (flag_status dict canonical value unit gender = some "LOW ⬇" ↔
        convert_value value unit bm.unit < low) ∧
    (flag_status dict canonical value unit gender = some "HIGH ⬆" ↔
        high < convert_value value unit bm.unit) ∧
    (flag_status dict canonical value unit gender = some "Normal" ↔
        (low ≤ convert_value value unit bm.unit ∧
         convert_value value unit bm.unit ≤ high)) ∧
    flag_status demoDict "Glucose (Fasting)" (6999/100) "mg/dL" gender = some "LOW ⬇" ∧
    flag_status demoDict "Glucose (Fasting)" 70 "mg/dL" gender = some "Normal" ∧
    flag_status demoDict "Glucose (Fasting)" 99 "mg/dL" gender = some "Normal" ∧
    flag_status demoDict "Glucose (Fasting)" (9901/100) "mg/dL" gender = some "HIGH ⬆" := by
  have hflag : flag_status dict canonical value unit gender =
      (if convert_value value unit bm.unit < low then some "LOW ⬇"
       else if high < convert_value value unit bm.unit then some "HIGH ⬆"
       else some "Normal") := by
    simp only [flag_status, hbm, hsr, hr, Option.any_some, decide_eq_true_eq]
  refine ⟨?_, ?_, ?_, ?_, ?_, ?_, ?_⟩
  · rw [hflag]; split_ifs with h1 h2
    · simpa using h1
    · simp +decide; exact le_of_not_lt h1
    · simp +decide; exact le_of_not_lt h1
  · rw [hflag]; split_ifs with h1 h2
    · simp +decide; linarith
    · simpa using h2
    · simp +decide; exact le_of_not_lt h2
  · rw [hflag]; split_ifs with h1 h2
    · simp +decide; intro ha; linarith
    · simp +decide; intro _; exact h2
    · simp +decide; exact ⟨le_of_not_lt h1, le_of_not_lt h2⟩
  all_goals
    simp +decide [flag_status, demoDict, dictGet, matchRows, convert_value, UNIT_CONVERSIONS,
      parse_range, matchLowHigh, matchRangeNum, pyStrip, pyLower, pyUpper, pyStarts, pyDrop,
      digitsVal, fracVal, List.dropWhile, List.takeWhile] <;> norm_num

/-- Witness for `claim1_flag_status_interval_bounds`: the hypotheses hold at
the demonstration dictionary, and the theorem applies there. -/
theorem claim1_witness :
    (dictGet demoDict "Glucose (Fasting)" = some ⟨"mg/dL", [⟨"both", "70-99"⟩]⟩ ∧
     matchRows (pyUpper "") (⟨"mg/dL", [⟨"both", "70-99"⟩]⟩ : Biomarker).sex_rows none =
       some ⟨"both", "70-99"⟩ ∧
     parse_range (⟨"both", "70-99"⟩ : SexRow).normal_range = some (some 70, some 99) ∧
     (70:ℚ) ≤ 99) ∧
    (flag_status demoDict "Glucose (Fasting)" 80 "mg/dL" "" = some "Normal" ↔
      (70 ≤ convert_value 80 "mg/dL" "mg/dL" ∧ convert_value 80 "mg/dL" "mg/dL" ≤ 99)) := by
  have h1 : dictGet demoDict "Glucose (Fasting)" =
      some ⟨"mg/dL", [⟨"both", "70-99"⟩]⟩ := by decide
  have h2 : matchRows (pyUpper "") (⟨"mg/dL", [⟨"both", "70-99"⟩]⟩ : Biomarker).sex_rows none =
      some ⟨"both", "70-99"⟩ := by decide
  have h3 : parse_range (⟨"both", "70-99"⟩ : SexRow).normal_range =
      some (some 70, some 99) := by
    simp +decide [parse_range, matchLowHigh, matchRangeNum, pyStrip, pyLower, pyStarts,
      pyDrop, digitsVal, fracVal, List.dropWhile, List.takeWhile]
  have h4 : (70:ℚ) ≤ 99 := by norm_num
  exact ⟨⟨h1, h2, h3, h4⟩,
    (claim1_flag_status_interval_bounds demoDict "Glucose (Fasting)" _ _ 80 "mg/dL" "" 70 99
      h1 h2 h3 h4).2.2.1⟩

/-- C2: when a biomarker's dictionary entry has both a `both` row and a row
whose sex matches the patient's gender, `flag_status` computes exactly what
it would compute from the sex-specific row alone — the `both` row's range
is never applied — in either load order of the two rows. -/
theorem claim2_sex_specific_overrides_both
    (u canonical : String) (br sr : SexRow) (value : ℚ) (unit gender : String)
    (hb : br.sex = "both")
    (hm : sexRowMatches (pyUpper gender) sr) :
    flag_status [(canonical, ⟨u, [br, sr]⟩)] canonical value unit gender =
      flag_status [(canonical, ⟨u, [sr]⟩)] canonical value unit gender ∧
    flag_status [(canonical, ⟨u, [sr, br]⟩)] canonical value unit gender =
      flag_status [(canonical, ⟨u, [sr]⟩)] canonical value unit gender := by
  have hbm : ∀ rows, dictGet [(canonical, (⟨u, rows⟩ : Biomarker))] canonical =
      some ⟨u, rows⟩ := by
    intro rows; simp [dictGet, List.find?]
  have hnb : sr.sex ≠ "both" := by
    rcases hm with ⟨h1, _⟩ | ⟨h1, _⟩ <;> simp [h1]
  have hsel1 : matchRows (pyUpper gender) [br, sr] none = some sr := by
    rw [matchRows_eq_find _ _ _ ⟨sr, by simp, hm⟩]
    have hbnm : ¬ sexRowMatches (pyUpper gender) br := by
      intro h; rcases h with ⟨h1, _⟩ | ⟨h1, _⟩ <;> rw [hb] at h1 <;> simp at h1
    simp [List.find?, hbnm, hm]
  have hsel2 : matchRows (pyUpper gender) [sr, br] none = some sr := by
    rw [matchRows_eq_find _ _ _ ⟨sr, by simp, hm⟩]
    simp [List.find?, hm]
  have hsel3 : matchRows (pyUpper gender) [sr] none = some sr := by
    rw [matchRows_eq_find _ _ _ ⟨sr, by simp, hm⟩]
    simp [List.find?, hm]
  constructor <;> simp only [flag_status, hbm, hsel1, hsel2, hsel3]

/-- Witness for `claim2_sex_specific_overrides_both`: a concrete `both` row
and a concrete male row for gender `M`. -/
theorem claim2_witness :
    ((⟨"both", "70-99"⟩ : SexRow).sex = "both" ∧
     sexRowMatches (pyUpper "M") ⟨"male", "80-120"⟩) ∧
    flag_status [("T", ⟨"mg/dL", [⟨"both", "70-99"⟩, ⟨"male", "80-120"⟩]⟩)] "T" 75 "mg/dL" "M" =
      flag_status [("T", ⟨"mg/dL", [⟨"male", "80-120"⟩]⟩)] "T" 75 "mg/dL" "M" := by
  have hb : (⟨"both", "70-99"⟩ : SexRow).sex = "both" := rfl
  have hm : sexRowMatches (pyUpper "M") ⟨"male", "80-120"⟩ := by
    left; constructor <;> decide
  exact ⟨⟨hb, hm⟩,
    (claim2_sex_specific_overrides_both "mg/dL" "T" ⟨"both", "70-99"⟩ ⟨"male", "80-120"⟩
      75 "mg/dL" "M" hb hm).1⟩

/-- C3 counterexample: `lab_extractor._parse_range` — the range parser the
Status Flagger actually uses — returns `(absent, absent)` for a bare
number (`"98.6"`) and for an en-dash range (`"70–99"`), not the pairs the
claim requires for those grammar forms. -/
theorem claim3_counterexample :
    parse_range "98.6" = some (none, none) ∧
    parse_range "70–99" = some (none, none) := by
  constructor <;> decide

/-- C3 amended: `app._parse_range` returns the expected pair for every
grammar form of §6 — `"70-99"`, `">=126"`, `"<=40"`, `">10"`, `"<5"`, the
en-dash range `"70–99"`, the bare number `"98.6"` — and `(absent, absent)`
for empty or unparseable input; `lab_extractor._parse_range` does the same
for the hyphen-range and the four inequality forms but returns
`(absent, absent)` for a bare number and for an en-dash range. -/
theorem claim3_amended_range_grammar :
    app_parse_range "70-99" = (some 70, some 99) ∧
    app_parse_range ">=126" = (some 126, none) ∧
    app_parse_range "<=40" = (none, some 40) ∧
    app_parse_range ">10" = (some 10, none) ∧
    app_parse_range "<5" = (none, some 5) ∧
    app_parse_range "70–99" = (some 70, some 99) ∧
    app_parse_range "98.6" = (some (493/5), some (493/5)) ∧
    app_parse_range "" = (none, none) ∧
    app_parse_range "Negative" = (none, none) ∧
    parse_range "70-99" = some (some 70, some 99) ∧
    parse_range ">=126" = some (some 126, none) ∧
    parse_range "<=40" = some (none, some 40) ∧
    parse_range ">10" = some (some 10, none) ∧
    parse_range "<5" = some (none, some 5) ∧
    parse_range "98.6" = some (none, none) ∧
    parse_range "70–99" = some (none, none) ∧
    parse_range "" = some (none, none) ∧
    parse_range "Negative" = some (none, none) := by
  refine ⟨?_, ?_, ?_, ?_, ?_, ?_, ?_, ?_, ?_, ?_, ?_, ?_, ?_, ?_, ?_, ?_, ?_, ?_⟩ <;>
    simp +decide [app_parse_range, parse_range, matchLowHigh, matchRangeNum, pyStrip, pyLower,
      pyStarts, pyDrop, pyFloat, splitFirst, enDash, parseUnsignedDec, digitsVal, fracVal,
      List.dropWhile, List.takeWhile] <;> norm_num

/-- C4 counterexample: an audit row with status `confirmed` but
`confidence = "low"` produces a diff row whose status is `confirmed` and
whose `needs_review` is `true`. -/
theorem claim4_counterexample :
    (build_diff c4df c4llmLow).map (fun r => (r.status, r.needs_review)) =
      [("confirmed", true)] := by
  decide

/-- C4 amended: a diff row whose audit status is `confirmed` has
`needs_review` set exactly when its confidence is `low` or its range flag
is one of `HIGH`/`LOW`/`CRITICAL_HIGH`/`CRITICAL_LOW`; in particular a row
for a test the audit did not mention never has `needs_review`. -/
theorem claim4_amended_needs_review (df : List ExtractedRow) (llm : LLMResult)
    (r : DiffRow) (hr : r ∈ build_diff df llm) (hconf : r.status = "confirmed") :
    r.needs_review = (r.confidence == "low" ||
      ["HIGH", "LOW", "CRITICAL_HIGH", "CRITICAL_LOW"].contains r.range_flag) := by
  unfold build_diff at hr
  by_cases he : llm.error.isSome
  · simp [he] at hr
  · simp only [he, if_false, Bool.false_eq_true] at hr
    rcases List.mem_append.mp hr with h | h
    · obtain ⟨row, _, rfl⟩ := List.mem_map.mp h
      cases hv : lookupVerif llm.verifications row.test_name with
      | none => simp [hv]
      | some v =>
        simp only [hv] at hconf ⊢
        rw [hconf]
        simp
    · obtain ⟨m, _, rfl⟩ := List.mem_map.mp h
      simp at hconf

/-- Witness for `claim4_amended_needs_review`: the confirmed diff row that
`build_diff` emits for a test the audit did not mention. -/
theorem claim4_witness :
    (c4row ∈ build_diff c4df c4llmEmpty ∧ c4row.status = "confirmed") ∧
    c4row.needs_review = (c4row.confidence == "low" ||
      ["HIGH", "LOW", "CRITICAL_HIGH", "CRITICAL_LOW"].contains c4row.range_flag) := by
  have h1 : c4row ∈ build_diff c4df c4llmEmpty := by decide
  have h2 : c4row.status = "confirmed" := rfl
  exact ⟨⟨h1, h2⟩, claim4_amended_needs_review c4df c4llmEmpty c4row h1 h2⟩

/-- C8: on a non-empty report, `apply_corrections` appends exactly one new
row per accepted `missed_by_regex` diff row — so a `missed_by_regex` row
whose test is not accepted changes nothing in the count — and every
appended row carries the audited value/unit, the unknown status sentinel
`—`, and the metadata (`report_date`, `patient_name`) of the report's
first row. -/
theorem claim8_apply_corrections_appends
    (df : List ReportRow) (diff : List DiffRow) (accepted : List String)
    (meta : Option MetaCorrections) (hdf : df ≠ []) :
    (apply_corrections df diff accepted meta).length =
      df.length + (missedAccepted diff accepted).length ∧
    ((apply_corrections df diff accepted meta).drop df.length).map
        (fun r => (r.test_name, r.value, r.unit, r.status, r.llm_verified,
          r.llm_corrected)) =
      (missedAccepted diff accepted).map
        (fun m => (m.test_name, m.llm_value, m.llm_unit, "—", true, true)) ∧
    ∀ r ∈ (apply_corrections df diff accepted meta).drop df.length,
      ∀ t0 ∈ (apply_corrections df diff accepted meta).head?,
        r.report_date = t0.report_date ∧ r.patient_name = t0.patient_name := by
  have hlen_meta : ∀ m l, (apply_meta m l).length = l.length := by
    intro m l
    cases m with
    | none => rfl
    | some mc =>
      cases hd : mc.date_correction <;> cases hn : mc.name_correction <;>
        simp [apply_meta, hd, hn]
  have hlen_val : ∀ l, (apply_value_corrections diff accepted l).length = l.length := by
    intro l; simp [apply_value_corrections]
  have happ : ∀ (t : ReportRow) (rest : List ReportRow),
      append_missed diff accepted (t :: rest) =
        (t :: rest) ++ (missedAccepted diff accepted).map (mkMissedRow t) := by
    intro t rest
    unfold append_missed
    cases hma : missedAccepted diff accepted <;> simp [hma]
  by_cases hde : diff.isEmpty
  · have : diff = [] := List.isEmpty_iff.mp hde
    subst this
    simp [apply_corrections, missedAccepted, List.drop_length]
  · have hlen2 : (apply_value_corrections diff accepted (apply_meta meta df)).length =
        df.length := by rw [hlen_val, hlen_meta]
    have hne2 : apply_value_corrections diff accepted (apply_meta meta df) ≠ [] := by
      intro hcon
      rw [hcon] at hlen2
      exact hdf (List.length_eq_zero.mp hlen2.symm)
    obtain ⟨t, rest, hrest⟩ := List.exists_cons_of_ne_nil hne2
    have hout : apply_corrections df diff accepted meta =
        (t :: rest) ++ (missedAccepted diff accepted).map (mkMissedRow t) := by
      unfold apply_corrections
      rw [if_neg (by simp [hde]), hrest, happ]
    have hlen3 : (t :: rest).length = df.length := by rw [← hrest]; exact hlen2
    have hdrop : (apply_corrections df diff accepted meta).drop df.length =
        (missedAccepted diff accepted).map (mkMissedRow t) := by
      rw [hout, ← hlen3, List.drop_left]
    refine ⟨?_, ?_, ?_⟩
    · rw [hout, List.length_append, List.length_map, hlen3]
    · rw [hdrop, List.map_map]
      apply List.map_congr_left
      intro m _
      simp [mkMissedRow]
    · intro r hrd t0 ht0
      rw [hdrop] at hrd
      obtain ⟨m', _, rfl⟩ := List.mem_map.mp hrd
      have hhead : (apply_corrections df diff accepted meta).head? = some t := by
        rw [hout]; rfl
      rw [hhead] at ht0
      simp only [Option.mem_def, Option.some_inj] at ht0
      subst ht0
      constructor <;> rfl

/-- Witness for `claim8_apply_corrections_appends`: a one-row report and a
diff with one accepted and one rejected missed test. -/
theorem claim8_witness :
    (([⟨"Haemoglobin", some 14, some "g/dL", "Normal", "2024-01-01", "JANE DOE",
        false, false⟩] : List ReportRow) ≠ []) ∧
    (apply_corrections
        [⟨"Haemoglobin", some 14, some "g/dL", "Normal", "2024-01-01", "JANE DOE",
          false, false⟩]
        [{ test_name := "HbA1c", regex_value := none, regex_unit := "",
           llm_value := some (11/2), llm_unit := some "%",
           status := "missed_by_regex", range_flag := "normal", range_note := "",
           unit_note := "", confidence := "high", note := "", needs_review := true },
         { test_name := "TSH", regex_value := none, regex_unit := "",
           llm_value := some 2, llm_unit := some "mIU/L",
           status := "missed_by_regex", range_flag := "normal", range_note := "",
           unit_note := "", confidence := "high", note := "", needs_review := true }]
        ["HbA1c"] none).length =
      1 + (missedAccepted
        [{ test_name := "HbA1c", regex_value := none, regex_unit := "",
           llm_value := some (11/2), llm_unit := some "%",
           status := "missed_by_regex", range_flag := "normal", range_note := "",
           unit_note := "", confidence := "high", note := "", needs_review := true },
         { test_name := "TSH", regex_value := none, regex_unit := "",
           llm_value := some 2, llm_unit := some "mIU/L",
           status := "missed_by_regex", range_flag := "normal", range_note := "",
           unit_note := "", confidence := "high", note := "", needs_review := true }]
        ["HbA1c"]).length := by
  refine ⟨by decide, ?_⟩
  have h := claim8_apply_corrections_appends
    [⟨"Haemoglobin", some 14, some "g/dL", "Normal", "2024-01-01", "JANE DOE",
      false, false⟩]
    [{ test_name := "HbA1c", regex_value := none, regex_unit := "",
       llm_value := some (11/2), llm_unit := some "%",
       status := "missed_by_regex", range_flag := "normal", range_note := "",
       unit_note := "", confidence := "high", note := "", needs_review := true },
     { test_name := "TSH", regex_value := none, regex_unit := "",
       llm_value := some 2, llm_unit := some "mIU/L",
       status := "missed_by_regex", range_flag := "normal", range_note := "",
       unit_note := "", confidence := "high", note := "", needs_review := true }]
    ["HbA1c"] none (by decide)
  exact h.1

/-- C9: `verify_with_llm` returns a structured error result — `error`
populated, `verifications` and `missed_tests` empty — whenever the API key
is missing, the `anthropic` dependency is missing, the API call raises, or
the response fails to parse as JSON. -/
theorem claim9_verify_error_paths (e : LLMEnv) (parse : String → Option ParsedAudit)
    (df : List ExtractedRow)
    (h : effectiveKey e = "" ∨ e.anthropic_installed = false ∨
         (∃ msg, e.api_call = .error msg) ∨
         (∃ raw, e.api_call = .ok raw ∧ parse raw = none)) :
    (verify_with_llm e parse df).error.isSome = true ∧
    (verify_with_llm e parse df).verifications = [] ∧
    (verify_with_llm e parse df).missed_tests = [] := by
  unfold verify_with_llm
  split_ifs with hk hi
  · exact ⟨rfl, rfl, rfl⟩
  · exact ⟨rfl, rfl, rfl⟩
  · cases hc : e.api_call with
    | error msg => exact ⟨rfl, rfl, rfl⟩
    | ok raw =>
      cases hp : parse raw with
      | none => simp [hp]
      | some p =>
        exfalso
        rcases h with h | h | ⟨msg, h⟩ | ⟨raw', h1, h2⟩
        · exact hk h
        · rw [h] at hi; exact hi rfl
        · rw [hc] at h; cases h
        · rw [hc] at h1
          cases h1
          rw [hp] at h2; cases h2

/-- Witness for `claim9_verify_error_paths`: an environment with no API key
at all. -/
theorem claim9_witness :
    (effectiveKey ⟨none, "", true, .ok "{}"⟩ = "" ∨
     (⟨none, "", true, .ok "{}"⟩ : LLMEnv).anthropic_installed = false ∨
     (∃ msg, (⟨none, "", true, .ok "{}"⟩ : LLMEnv).api_call = .error msg) ∨
     (∃ raw, (⟨none, "", true, .ok "{}"⟩ : LLMEnv).api_call = .ok raw ∧
        (fun _ => (none : Option ParsedAudit)) raw = none)) ∧
    (verify_with_llm ⟨none, "", true, .ok "{}"⟩ (fun _ => none) []).error.isSome = true ∧
    (verify_with_llm ⟨none, "", true, .ok "{}"⟩ (fun _ => none) []).verifications = [] ∧
    (verify_with_llm ⟨none, "", true, .ok "{}"⟩ (fun _ => none) []).missed_tests = [] := by
  have h : effectiveKey ⟨none, "", true, .ok "{}"⟩ = "" := rfl
  exact ⟨Or.inl h, claim9_verify_error_paths _ (fun _ => none) [] (Or.inl h)⟩

/-! ### Properties of the duplicate-drop -/

section DedupLemmas

variable {α κ : Type} [DecidableEq κ] (key : α → κ)

theorem dedupByKey_congr : ∀ {s₁ s₂ : List κ}, (∀ k, k ∈ s₁ ↔ k ∈ s₂) →
    ∀ l, dedupByKey key s₁ l = dedupByKey key s₂ l
  | _, _, _, [] => rfl
  | s₁, s₂, h, r :: rs => by
    by_cases hk : key r ∈ s₁
    · simp only [dedupByKey, if_pos hk, if_pos ((h _).mp hk)]
      exact dedupByKey_congr h rs
    · have hk2 : key r ∉ s₂ := fun hc => hk ((h _).mpr hc)
      simp only [dedupByKey, if_neg hk, if_neg hk2]
      have h' : ∀ k, k ∈ key r :: s₁ ↔ k ∈ key r :: s₂ := by
        intro k; simp [h k]
      exact congrArg (r :: ·) (dedupByKey_congr h' rs)

theorem dedupByKey_append : ∀ (l₁ : List α) (seen : List κ) (l₂ : List α),
    dedupByKey key seen (l₁ ++ l₂) =
      dedupByKey key seen l₁ ++ dedupByKey key (l₁.map key ++ seen) l₂
  | [], _, _ => rfl
  | r :: rs, seen, l₂ => by
    simp only [List.cons_append, dedupByKey, List.map_cons, List.append_eq]
    by_cases hk : key r ∈ seen
    · rw [if_pos hk, if_pos hk, dedupByKey_append rs seen l₂]
      refine congrArg (dedupByKey key seen rs ++ ·) (dedupByKey_congr key (fun k => ?_) l₂)
      simp only [List.mem_cons, List.mem_append]
      constructor
      · exact fun h => Or.inr h
      · rintro (rfl | h)
        · exact Or.inr hk
        · exact h
    · rw [if_neg hk, if_neg hk, dedupByKey_append rs (key r :: seen) l₂,
        List.cons_append]
      refine congrArg (r :: ·) (congrArg (dedupByKey key (key r :: seen) rs ++ ·)
        (dedupByKey_congr key (fun k => ?_) l₂))
      simp only [List.mem_cons, List.mem_append]
      tauto

theorem dedupByKey_eq_filter : ∀ (seen : List κ) (l : List α),
    l.Pairwise (fun a b => key a ≠ key b) →
    dedupByKey key seen l = l.filter (fun r => decide (key r ∉ seen))
  | _, [], _ => rfl
  | seen, r :: rs, hp => by
    have hp' := (List.pairwise_cons.mp hp).2
    have hr := (List.pairwise_cons.mp hp).1
    by_cases hk : key r ∈ seen
    · simp only [dedupByKey, if_pos hk, List.filter_cons, decide_eq_true_eq]
      rw [if_neg (by simp [hk])]
      exact dedupByKey_eq_filter seen rs hp'
    · simp only [dedupByKey, if_neg hk, List.filter_cons]
      rw [if_pos (by simp [hk])]
      refine congrArg (r :: ·) ?_
      rw [dedupByKey_eq_filter (key r :: seen) rs hp']
      apply List.filter_congr
      intro b hb
      simp only [decide_eq_decide, List.mem_cons]
      constructor
      · intro hcon
        exact fun hmem => hcon (Or.inr hmem)
      · rintro hcon (he | hmem)
        · exact hr b hb he.symm
        · exact hcon hmem

theorem mem_of_mem_dedupByKey : ∀ {seen : List κ} {l : List α} {r : α},
    r ∈ dedupByKey key seen l → r ∈ l
  | _, [], _, h => absurd h (List.not_mem_nil _)
  | seen, x :: xs, r, h => by
    by_cases hk : key x ∈ seen
    · simp only [dedupByKey, if_pos hk] at h
      exact List.mem_cons_of_mem _ (mem_of_mem_dedupByKey h)
    · simp only [dedupByKey, if_neg hk, List.mem_cons] at h
      rcases h with rfl | h
      · exact List.mem_cons_self _ _
      · exact List.mem_cons_of_mem _ (mem_of_mem_dedupByKey h)

theorem dedupByKey_nil_of_forall_mem : ∀ {seen : List κ} {l : List α},
    (∀ r ∈ l, key r ∈ seen) → dedupByKey key seen l = []
  | _, [], _ => rfl
  | seen, x :: xs, h => by
    simp only [dedupByKey, if_pos (h x (List.mem_cons_self x xs))]
    exact dedupByKey_nil_of_forall_mem (fun r hr => h r (List.mem_cons_of_mem _ hr))

theorem key_mem_of_mem_dedupByKey : ∀ {seen : List κ} {l : List α} {k : κ},
    k ∈ l.map key → k ∉ seen → k ∈ (dedupByKey key seen l).map key
  | _, [], _, h, _ => absurd h (by simp)
  | seen, x :: xs, k, h, hns => by
    by_cases hk : key x ∈ seen
    · simp only [dedupByKey, if_pos hk]
      rcases List.mem_map.mp h with ⟨r, hr, rfl⟩
      rcases List.mem_cons.mp hr with rfl | hr'
      · exact absurd hk hns
      · exact key_mem_of_mem_dedupByKey (List.mem_map_of_mem key hr') hns
    · simp only [dedupByKey, if_neg hk, List.map_cons, List.mem_cons]
      by_cases he : k = key x
      · exact Or.inl he
      · refine Or.inr ?_
        rcases List.mem_map.mp h with ⟨r, hr, rfl⟩
        rcases List.mem_cons.mp hr with rfl | hr'
        · exact absurd rfl he
        · exact key_mem_of_mem_dedupByKey (List.mem_map_of_mem key hr')
            (by simp [hns, he])

theorem key_not_mem_seen_of_mem_dedupByKey : ∀ {seen : List κ} {l : List α} {r : α},
    r ∈ dedupByKey key seen l → key r ∉ seen
  | _, [], _, h => absurd h (List.not_mem_nil _)
  | seen, x :: xs, r, h => by
    by_cases hk : key x ∈ seen
    · simp only [dedupByKey, if_pos hk] at h
      exact key_not_mem_seen_of_mem_dedupByKey h
    · simp only [dedupByKey, if_neg hk, List.mem_cons] at h
      rcases h with rfl | h
      · exact hk
      · intro hc
        exact key_not_mem_seen_of_mem_dedupByKey h (List.mem_cons_of_mem _ hc)

theorem dedupByKey_pairwise : ∀ (seen : List κ) (l : List α),
    (dedupByKey key seen l).Pairwise (fun a b => key a ≠ key b)
  | _, [] => List.Pairwise.nil
  | seen, x :: xs => by
    by_cases hk : key x ∈ seen
    · simpa only [dedupByKey, if_pos hk] using dedupByKey_pairwise seen xs
    · simp only [dedupByKey, if_neg hk, List.pairwise_cons]
      refine ⟨?_, dedupByKey_pairwise (key x :: seen) xs⟩
      intro b hb he
      have : key b ∉ key x :: seen := key_not_mem_seen_of_mem_dedupByKey key hb
      exact this (by simp [he.symm])

theorem dedupByKey_ne_nil {l : List α} (h : l ≠ []) :
    dedupByKey key [] l ≠ [] := by
  cases l with
  | nil => exact absurd rfl h
  | cons x xs => simp [dedupByKey]

end DedupLemmas

/-- Overwriting `patient_name` with the value it already holds is the
identity. -/
theorem storeRow_set_same_name (r : StoreRow) (nm : String)
    (h : r.patient_name = nm) :
    ({ r with patient_name := nm } : StoreRow) = r := by
  cases r; cases h; rfl

/-- Re-saving the same report into a freshly saved profile returns the
profile unchanged, except that the name-upgrade heuristic may rewrite
`patient_name` on every row. -/
theorem save_report_resave (X : List StoreRow) (d0 : StoreRow) (dtl : List StoreRow)
    (hX : ∀ k ∈ (d0 :: dtl).map saveKey, k ∈ X.map saveKey) :
    save_report (some (sortRows (dedupByKey saveKey [] X))) (d0 :: dtl) =
      some (sortRows (dedupByKey saveKey [] X)) ∨
    save_report (some (sortRows (dedupByKey saveKey [] X))) (d0 :: dtl) =
      some ((sortRows (dedupByKey saveKey [] X)).map
        (fun r => { r with patient_name := d0.patient_name })) := by
  have hstep : ∀ e2 : List StoreRow,
      e2.Pairwise (fun a b => saveKey a ≠ saveKey b) →
      List.Sorted rowLE e2 →
      (∀ k ∈ (d0 :: dtl).map saveKey, k ∈ e2.map saveKey) →
      sortRows (dedupByKey saveKey [] (e2 ++ (d0 :: dtl))) = e2 := by
    intro e2 hpw hsort hkeys
    rw [dedupByKey_append saveKey e2 [] _,
      dedupByKey_eq_filter saveKey [] e2 hpw,
      List.filter_eq_self.mpr (by intro a _; simp),
      dedupByKey_nil_of_forall_mem saveKey
        (fun r hr => List.mem_append_left []
          (hkeys _ (List.mem_map_of_mem saveKey hr))),
      List.append_nil]
    exact hsort.insertionSort_eq
  have hperm : (sortRows (dedupByKey saveKey [] X)).Perm
      (dedupByKey saveKey [] X) := List.perm_insertionSort _ _
  have hpw1 : (sortRows (dedupByKey saveKey [] X)).Pairwise
      (fun a b => saveKey a ≠ saveKey b) := by
    refine (List.Perm.pairwise_iff ?_ hperm).mpr (dedupByKey_pairwise saveKey [] X)
    intro a b h he
    exact h he.symm
  have hsort1 : List.Sorted rowLE (sortRows (dedupByKey saveKey [] X)) :=
    List.sorted_insertionSort rowLE _
  have hkeys1 : ∀ k ∈ (d0 :: dtl).map saveKey,
      k ∈ (sortRows (dedupByKey saveKey [] X)).map saveKey := by
    intro k hk
    have h2 : k ∈ (dedupByKey saveKey [] X).map saveKey :=
      key_mem_of_mem_dedupByKey saveKey (hX k hk) (by simp)
    exact (hperm.map saveKey).mem_iff.mpr h2
  have hcompkey : saveKey ∘ (fun r : StoreRow =>
      { r with patient_name := d0.patient_name }) = saveKey := rfl
  have hpwf : ((sortRows (dedupByKey saveKey [] X)).map
      (fun r => { r with patient_name := d0.patient_name })).Pairwise
      (fun a b => saveKey a ≠ saveKey b) :=
    (List.pairwise_map).mpr hpw1
  have hsortf : List.Sorted rowLE ((sortRows (dedupByKey saveKey [] X)).map
      (fun r => { r with patient_name := d0.patient_name })) :=
    (List.pairwise_map).mpr (hsort1.imp (fun h => h))
  have hkeysf : ∀ k ∈ (d0 :: dtl).map saveKey,
      k ∈ ((sortRows (dedupByKey saveKey [] X)).map
        (fun r => { r with patient_name := d0.patient_name })).map saveKey := by
    intro k hk
    rw [List.map_map, hcompkey]
    exact hkeys1 k hk
  have hunfold : save_report (some (sortRows (dedupByKey saveKey [] X))) (d0 :: dtl) =
      some (sortRows (dedupByKey saveKey []
        ((if (match (sortRows (dedupByKey saveKey [] X)).head? with
            | some e => e.patient_name
            | none => "").length < d0.patient_name.length
          then (sortRows (dedupByKey saveKey [] X)).map
            (fun r => { r with patient_name := d0.patient_name })
          else sortRows (dedupByKey saveKey [] X)) ++ (d0 :: dtl)))) := rfl
  by_cases hcond : (match (sortRows (dedupByKey saveKey [] X)).head? with
      | some e => e.patient_name
      | none => "").length < d0.patient_name.length
  · right
    rw [hunfold, if_pos hcond, hstep _ hpwf hsortf hkeysf]
  · left
    rw [hunfold, if_neg hcond, hstep _ hpw1 hsort1 hkeys1]

/-- C5: calling `save_report` a second time with the exact same report rows
leaves the stored profile's row count unchanged, keeps for every
`(test_name, report_date)` pair the row stored first (only the
`patient_name` column can be rewritten, by the longer-name upgrade
heuristic), and when the stored rows and the report rows all carry one
patient name the second call changes nothing at all. -/
theorem claim5_save_report_idempotent (store : Option (List StoreRow))
    (df : List StoreRow) :
    (save_report (save_report store df) df).map List.length =
      (save_report store df).map List.length ∧
    (save_report (save_report store df) df).map
        (List.map (fun r => { r with patient_name := "" })) =
      (save_report store df).map
        (List.map (fun r => { r with patient_name := "" })) ∧
    ∀ nm, (∀ r ∈ df, r.patient_name = nm) →
      (∀ st, store = some st → ∀ r ∈ st, r.patient_name = nm) →
      save_report (save_report store df) df = save_report store df := by
  cases df with
  | nil => exact ⟨rfl, rfl, fun _ _ _ => rfl⟩
  | cons d0 dtl =>
    have hmain : ∀ (X : List StoreRow),
        save_report store (d0 :: dtl) = some (sortRows (dedupByKey saveKey [] X)) →
        (∀ k ∈ (d0 :: dtl).map saveKey, k ∈ X.map saveKey) →
        (save_report (save_report store (d0 :: dtl)) (d0 :: dtl)).map List.length =
          (save_report store (d0 :: dtl)).map List.length ∧
        (save_report (save_report store (d0 :: dtl)) (d0 :: dtl)).map
            (List.map (fun r => { r with patient_name := "" })) =
          (save_report store (d0 :: dtl)).map
            (List.map (fun r => { r with patient_name := "" })) ∧
        ((∀ r ∈ X, r.patient_name = d0.patient_name) →
          save_report (save_report store (d0 :: dtl)) (d0 :: dtl) =
            save_report store (d0 :: dtl)) := by
      intro X hs1 hX
      rcases save_report_resave X d0 dtl hX with hL | hR
      · rw [hs1, hL, ← hs1]
        exact ⟨rfl, rfl, fun _ => rfl⟩
      · rw [hs1, hR]
        refine ⟨?_, ?_, ?_⟩
        · simp only [Option.map_some', List.length_map]
        · simp only [Option.map_some', List.map_map]
          rfl
        · intro hnames
          refine congrArg some ?_
          have hmem : ∀ r ∈ sortRows (dedupByKey saveKey [] X), r ∈ X := by
            intro r hr
            exact mem_of_mem_dedupByKey saveKey
              ((List.perm_insertionSort _ _).mem_iff.mp hr)
          refine (List.map_congr_left ?_).trans
            (List.map_id (sortRows (dedupByKey saveKey [] X)))
          intro r hr
          exact storeRow_set_same_name r d0.patient_name (hnames r (hmem r hr))
    cases store with
    | none =>
      have hs1 : save_report none (d0 :: dtl) =
          some (sortRows (dedupByKey saveKey [] (d0 :: dtl))) := rfl
      obtain ⟨h1, h2, h3⟩ := hmain (d0 :: dtl) hs1 (fun k hk => hk)
      refine ⟨h1, h2, ?_⟩
      intro nm hdf _
      refine h3 ?_
      intro r hr
      rw [hdf r hr, ← hdf d0 (List.mem_cons_self d0 dtl)]
    | some ex =>
      have hs1 : save_report (some ex) (d0 :: dtl) =
          some (sortRows (dedupByKey saveKey []
            ((if (match ex.head? with
                | some e => e.patient_name
                | none => "").length < d0.patient_name.length
              then ex.map (fun r => { r with patient_name := d0.patient_name })
              else ex) ++ (d0 :: dtl)))) := rfl
      have hX : ∀ k ∈ (d0 :: dtl).map saveKey,
          k ∈ ((if (match ex.head? with
              | some e => e.patient_name
              | none => "").length < d0.patient_name.length
            then ex.map (fun r => { r with patient_name := d0.patient_name })
            else ex) ++ (d0 :: dtl)).map saveKey := by
        intro k hk
        rw [List.map_append]
        exact List.mem_append_right _ hk
      obtain ⟨h1, h2, h3⟩ := hmain _ hs1 hX
      refine ⟨h1, h2, ?_⟩
      intro nm hdf hst
      refine h3 ?_
      intro r hr
      have hd0 : d0.patient_name = nm := hdf d0 (List.mem_cons_self d0 dtl)
      rcases List.mem_append.mp hr with hl | hrr
      · by_cases hcond : (match ex.head? with
            | some e => e.patient_name
            | none => "").length < d0.patient_name.length
        · rw [if_pos hcond] at hl
          obtain ⟨r', _, rfl⟩ := List.mem_map.mp hl
          rfl
        · rw [if_neg hcond] at hl
          rw [hst ex rfl r hl, hd0]
      · rw [hdf r hrr, hd0]

/-- Witness for `claim5_save_report_idempotent`: a one-row stored profile
and a one-row fresh report, all rows named `JANE DOE`. -/
theorem claim5_witness :
    ((∀ r ∈ c5df, r.patient_name = "JANE DOE") ∧
     (∀ st, some c5store = some st → ∀ r ∈ st, r.patient_name = "JANE DOE")) ∧
    save_report (save_report (some c5store) c5df) c5df =
      save_report (some c5store) c5df := by
  have h1 : ∀ r ∈ c5df, r.patient_name = "JANE DOE" := by decide
  have h2 : ∀ st, some c5store = some st → ∀ r ∈ st,
      r.patient_name = "JANE DOE" := by
    intro st hst
    cases Option.some.inj hst
    decide
  exact ⟨⟨h1, h2⟩,
    (claim5_save_report_idempotent (some c5store) c5df).2.2 "JANE DOE" h1 h2⟩

/-- C6: `merge_into_patient` fails (returns `False`, changing nothing) when
either profile is missing; otherwise the new target content is the
target's original rows followed by the reassigned source rows with
duplicate `(report_date, test_name)` pairs dropped keeping the target's
version, and the source is deleted; the row count is the sum of both
minus one per overlapping pair (so the plain sum when no pair overlaps),
and the target's original row for every existing pair is left
unchanged. -/
theorem claim6_merge_into_patient
    (s t : List StoreRow) (target_id : String) (t0 : StoreRow) (trest : List StoreRow)
    (ht : t = t0 :: trest)
    (hs : s.Pairwise (fun a b => mergeKey a ≠ mergeKey b))
    (htk : t.Pairwise (fun a b => mergeKey a ≠ mergeKey b)) :
    (∀ tgt, merge_into_patient none tgt target_id = some (false, none, tgt)) ∧
    (∀ src, merge_into_patient (some src) none target_id =
      some (false, some src, none)) ∧
    merge_into_patient (some s) (some t) target_id =
      some (true, none, some (mergedRows s t target_id t0.patient_name)) ∧
    (mergedRows s t target_id t0.patient_name).length =
      t.length + s.length -
        (s.filter (fun r => decide (mergeKey r ∈ t.map mergeKey))).length ∧
    ((s.filter (fun r => decide (mergeKey r ∈ t.map mergeKey))).length = 0 →
      (mergedRows s t target_id t0.patient_name).length = t.length + s.length) ∧
    (∀ k ∈ t.map mergeKey,
      (mergedRows s t target_id t0.patient_name).filter
          (fun r => decide (mergeKey r = k)) =
        t.filter (fun r => decide (mergeKey r = k))) := by
  subst ht
  have hkey : ∀ r : StoreRow,
      mergeKey { r with patient_id := target_id,
                        patient_name := t0.patient_name } = mergeKey r :=
    fun _ => rfl
  have hs2 : (mergeReassign s target_id t0.patient_name).Pairwise
      (fun a b => mergeKey a ≠ mergeKey b) := by
    unfold mergeReassign
    exact (List.pairwise_map).mpr (by simpa [hkey] using hs)
  have hfilter_len :
      ((mergeReassign s target_id t0.patient_name).filter
        (fun r => decide (mergeKey r ∉ (t0 :: trest).map mergeKey))).length =
      (s.filter (fun r => decide (mergeKey r ∉ (t0 :: trest).map mergeKey))).length := by
    unfold mergeReassign
    rw [List.filter_map, List.length_map]
    refine congrArg _ (List.filter_congr ?_)
    intro r _
    rfl
  refine ⟨fun tgt => by cases tgt <;> rfl, fun src => rfl, ?_, ?_, ?_, ?_⟩
  · have hstep : merge_into_patient (some s) (some (t0 :: trest)) target_id =
        some (true, none, some (dedupByKey mergeKey []
          ((t0 :: trest) ++ mergeReassign s target_id t0.patient_name))) := rfl
    rw [hstep]
    refine congrArg some (congrArg _ (congrArg _ (congrArg some ?_)))
    rw [dedupByKey_append mergeKey (t0 :: trest) [] _]
    unfold mergedRows
    refine congrArg₂ (· ++ ·) ?_ ?_
    · rw [dedupByKey_eq_filter mergeKey [] _ htk]
      simp
    · rw [dedupByKey_eq_filter mergeKey _ _ hs2]
      apply List.filter_congr
      intro r _
      simp
  · unfold mergedRows
    rw [List.length_append, hfilter_len]
    have hsum := List.length_eq_length_filter_add
      (l := s) (fun r => decide (mergeKey r ∈ (t0 :: trest).map mergeKey))
    have hnot : (s.filter
        (fun r => !decide (mergeKey r ∈ (t0 :: trest).map mergeKey))).length =
        (s.filter (fun r => decide (mergeKey r ∉ (t0 :: trest).map mergeKey))).length := by
      refine congrArg _ (List.filter_congr ?_)
      intro r _
      exact decide_not.symm
    omega
  · intro h0
    unfold mergedRows
    rw [List.length_append, hfilter_len]
    have hsum := List.length_eq_length_filter_add
      (l := s) (fun r => decide (mergeKey r ∈ (t0 :: trest).map mergeKey))
    have hnot : (s.filter
        (fun r => !decide (mergeKey r ∈ (t0 :: trest).map mergeKey))).length =
        (s.filter (fun r => decide (mergeKey r ∉ (t0 :: trest).map mergeKey))).length := by
      refine congrArg _ (List.filter_congr ?_)
      intro r _
      exact decide_not.symm
    omega
  · intro k hk
    unfold mergedRows
    rw [List.filter_append]
    have hnil : ((mergeReassign s target_id t0.patient_name).filter
        (fun r => decide (mergeKey r ∉ (t0 :: trest).map mergeKey))).filter
          (fun r => decide (mergeKey r = k)) = [] := by
      apply List.filter_eq_nil_iff.mpr
      intro r hr
      have hrk := List.of_mem_filter hr
      simp only [decide_eq_true_eq] at hrk
      simp only [decide_eq_true_eq]
      intro he
      exact hrk (he ▸ hk)
    rw [hnil, List.append_nil]

/-- Witness for `claim6_merge_into_patient`: a concrete two-row target and
one-row source with no overlapping pair. -/
theorem claim6_witness :
    (c6target = ⟨"Haemoglobin", "2024-01-01", 14, "g/dL", "Normal", "P0001",
        "BEVERLEY BARNES"⟩ ::
      [⟨"TSH", "2024-01-01", 2, "mIU/L", "Normal", "P0001", "BEVERLEY BARNES"⟩] ∧
     c6source.Pairwise (fun a b => mergeKey a ≠ mergeKey b) ∧
     c6target.Pairwise (fun a b => mergeKey a ≠ mergeKey b)) ∧
    merge_into_patient (some c6source) (some c6target) "P0001" =
      some (true, none, some (mergedRows c6source c6target "P0001"
        "BEVERLEY BARNES")) := by
  have h1 : c6target = ⟨"Haemoglobin", "2024-01-01", 14, "g/dL", "Normal", "P0001",
      "BEVERLEY BARNES"⟩ ::
      [⟨"TSH", "2024-01-01", 2, "mIU/L", "Normal", "P0001", "BEVERLEY BARNES"⟩] := rfl
  have h2 : c6source.Pairwise (fun a b => mergeKey a ≠ mergeKey b) := by decide
  have h3 : c6target.Pairwise (fun a b => mergeKey a ≠ mergeKey b) := by decide
  exact ⟨⟨h1, h2, h3⟩,
    (claim6_merge_into_patient c6source c6target "P0001" _ _ h1 h2 h3).2.2.1⟩

/-- The trend row built for test `t` carries `t` as its test name. -/
theorem trendFor_test_name {h : List HistRow} {t : String} {r : TrendRow}
    (he : trendFor h t = some r) : r.test_name = t := by
  unfold trendFor at he
  cases htg : trendGroup h t with
  | nil => rw [htg] at he; exact absurd he (by simp)
  | cons f tl =>
    cases tl with
    | nil => rw [htg] at he; exact absurd he (by simp)
    | cons b rest =>
      rw [htg] at he
      have := Option.some.inj he
      rw [← this]

/-- Every row of `generate_trends` is the trend `trendFor` computes for its
own test. -/
theorem mem_generate_trends {h : List HistRow} {r : TrendRow}
    (hr : r ∈ generate_trends h) : trendFor h r.test_name = some r := by
  unfold generate_trends at hr
  rw [List.mem_insertionSort] at hr
  obtain ⟨t, _, he⟩ := List.mem_filterMap.mp hr
  have hname := trendFor_test_name he
  rw [hname]
  exact he

/-- C7: a test with fewer than two distinct dated entries contributes no
trend row, and a trend row whose group's first dated value is zero reports
a percent change of `0` (the division is never evaluated — the zero guard
takes the other branch). -/
theorem claim7_trends_zero_guard (h : List HistRow) (t : String) :
    ((trendGroup h t).length < 2 → ∀ r ∈ generate_trends h, r.test_name ≠ t) ∧
    (∀ r ∈ generate_trends h, ∀ f grest, trendGroup h r.test_name = f :: grest →
      f.value = 0 → r.change_pct = 0) := by
  constructor
  · intro hlen r hr hteq
    have he := mem_generate_trends hr
    rw [hteq] at he
    unfold trendFor at he
    cases htg : trendGroup h t with
    | nil => rw [htg] at he; simp at he
    | cons f tl =>
      cases tl with
      | nil => rw [htg] at he; simp at he
      | cons b rest =>
        rw [htg] at hlen
        simp at hlen
        omega
  · intro r hr f grest hg hf0
    have he := mem_generate_trends hr
    unfold trendFor at he
    rw [hg] at he
    cases grest with
    | nil => simp at he
    | cons b rest =>
      have hrec := Option.some.inj he
      rw [← hrec]
      simp [hf0]

theorem hexChar_mem {n : Nat} (h : n < 16) :
    hexChar n ∈ ("0123456789abcdef").toList := by
  have hall : ∀ m, m < 16 → hexChar m ∈ ("0123456789abcdef").toList := by decide
  exact hall n h

theorem byteHex_mem {b : Nat} (hb : b < 256) :
    ∀ c ∈ byteHex b, c ∈ ("0123456789abcdef").toList := by
  intro c hc
  simp only [byteHex, List.mem_cons, List.not_mem_nil, or_false] at hc
  rcases hc with rfl | rfl
  · exact hexChar_mem ((Nat.div_lt_iff_lt_mul (by norm_num)).mpr (by omega))
  · exact hexChar_mem (Nat.mod_lt _ (by norm_num))

theorem wordHexChars_mem (w : Nat) :
    ∀ c ∈ wordHexChars w, c ∈ ("0123456789abcdef").toList := by
  intro c hc
  unfold wordHexChars at hc
  simp only [List.mem_append] at hc
  rcases hc with ((h | h) | h) | h <;>
    exact byteHex_mem (Nat.mod_lt _ (by norm_num)) _ h

theorem sha256hexChars_length (msg : List Nat) :
    (sha256hexChars msg).length = 64 := by
  unfold sha256hexChars
  simp [List.join, wordHexChars, byteHex]

theorem sha256hexChars_mem (msg : List Nat) :
    ∀ c ∈ sha256hexChars msg, c ∈ ("0123456789abcdef").toList := by
  intro c hc
  unfold sha256hexChars at hc
  rw [List.mem_join] at hc
  obtain ⟨l, hl, hcl⟩ := hc
  obtain ⟨w, _, rfl⟩ := List.mem_map.mp hl
  exact wordHexChars_mem w c hcl

theorem toUpper_hex : ∀ c ∈ ("0123456789abcdef").toList,
    Char.toUpper c ∈ ("0123456789ABCDEF").toList := by decide

theorem pidHash_shape (key : String) :
    (pidHash key).toList.length = 8 ∧
    ∀ c ∈ (pidHash key).toList, c ∈ ("0123456789ABCDEF").toList := by
  constructor
  · show (((sha256hexChars (utf8Encode key)).take 8).map Char.toUpper).length = 8
    simp [List.length_take, sha256hexChars_length]
  · intro c hc
    have hc2 : c ∈ ((sha256hexChars (utf8Encode key)).take 8).map Char.toUpper := hc
    obtain ⟨d, hd, rfl⟩ := List.mem_map.mp hc2
    exact toUpper_hex d (sha256hexChars_mem _ d (List.mem_of_mem_take hd))

/-- C10: `make_patient_id` is total, and whenever it does not reuse a
stored identifier (Tier 1, or a failed store lookup leading to Tiers 2b
and 3), the result is `P` followed by exactly eight upper-case hex
characters; with no real words in the name, no phone digits and a missing
or zero age, the Tier-3 key hashes first word `UNKNOWN` and decade
`XX`. -/
theorem claim10_make_patient_id_shape (meta : PatientMeta) (store : List StoredProfile)
    (h : 2 ≤ (realWords meta.name).length ∨
      lookup_existing_pid store ((realWords meta.name).headD "UNKNOWN")
        (pyUpper meta.gender) (phoneDigits meta.phone) = none) :
    (∃ t : List Char, (make_patient_id meta store).toList = 'P' :: t ∧
      t.length = 8 ∧ ∀ c ∈ t, c ∈ ("0123456789ABCDEF").toList) ∧
    (realWords meta.name = [] → phoneDigits meta.phone = "" →
      (meta.age = none ∨ meta.age = some 0) →
      make_patient_id meta store =
        "P" ++ pidHash ("FIRST|UNKNOWN|" ++ pyUpper meta.gender ++ "|XX")) := by
  have hP : ∀ key : String, ∃ t : List Char,
      ("P" ++ pidHash key).toList = 'P' :: t ∧ t.length = 8 ∧
      ∀ c ∈ t, c ∈ ("0123456789ABCDEF").toList :=
    fun key => ⟨(pidHash key).toList, rfl, (pidHash_shape key).1, (pidHash_shape key).2⟩
  constructor
  · unfold make_patient_id
    by_cases h1 : 2 ≤ (realWords meta.name).length
    · rw [if_pos h1]
      exact hP _
    · rw [if_neg h1]
      dsimp only
      rw [h.resolve_left h1]
      dsimp only
      by_cases h2 : phoneDigits meta.phone ≠ "" ∧ 8 ≤ (phoneDigits meta.phone).length
      · rw [if_pos h2]
        exact hP _
      · rw [if_neg h2]
        exact hP _
  · intro hrw hpd hage
    have h1 : ¬ 2 ≤ (realWords meta.name).length := by
      rw [hrw]
      simp
    have hlk : lookup_existing_pid store "UNKNOWN"
        (pyUpper meta.gender) (phoneDigits meta.phone) = none := by
      have h2 := h.resolve_left h1
      rw [hrw] at h2
      exact h2
    have h2 : ¬ (phoneDigits meta.phone ≠ "" ∧
        8 ≤ (phoneDigits meta.phone).length) := by
      rw [hpd]
      simp
    unfold make_patient_id
    rw [if_neg h1, hrw]
    dsimp only [List.headD]
    rw [hlk]
    dsimp only
    rw [if_neg h2]
    rcases hage with hage | hage <;> rw [hage] <;> simp [String.append_assoc]

/-- Witness for `claim10_make_patient_id_shape`: fully degenerate metadata
(empty name, gender and phone, no age) against an empty store. -/
theorem claim10_witness :
    (2 ≤ (realWords (PatientMeta.mk "" "" "" none).name).length ∨
      lookup_existing_pid ([] : List StoredProfile)
        ((realWords (PatientMeta.mk "" "" "" none).name).headD "UNKNOWN")
        (pyUpper (PatientMeta.mk "" "" "" none).gender)
        (phoneDigits (PatientMeta.mk "" "" "" none).phone) = none) ∧
    (∃ t : List Char,
      (make_patient_id (PatientMeta.mk "" "" "" none) []).toList = 'P' :: t ∧
      t.length = 8 ∧ ∀ c ∈ t, c ∈ ("0123456789ABCDEF").toList) := by
  have hlk : lookup_existing_pid ([] : List StoredProfile)
      ((realWords (PatientMeta.mk "" "" "" none).name).headD "UNKNOWN")
      (pyUpper (PatientMeta.mk "" "" "" none).gender)
      (phoneDigits (PatientMeta.mk "" "" "" none).phone) = none := rfl
  exact ⟨Or.inr hlk,
    (claim10_make_patient_id_shape (PatientMeta.mk "" "" "" none) [] (Or.inr hlk)).1⟩

/-- Witness for `claim7_trends_zero_guard`: a single dated Haemoglobin
reading yields no Haemoglobin trend row. -/
theorem claim7_witness :
    (trendGroup c7hist "Haemoglobin").length < 2 ∧
    (∀ r ∈ generate_trends c7hist, r.test_name ≠ "Haemoglobin") := by
  have h1 : (trendGroup c7hist "Haemoglobin").length < 2 := by decide
  exact ⟨h1, (claim7_trends_zero_guard c7hist "Haemoglobin").1 h1⟩

end ThadamAI
